import Mathlib

/-!
Verification of the pure data-pipeline core of a client-side CSV
interactive-table application (`lib.js`, serialization from `app.js`).

Strings are modelled as Lean `String` / `List Char`.  JavaScript host
behaviour is embedded explicitly:
* `String.prototype.trim` removes the JS WhiteSpace / LineTerminator set
  (`isJSWhitespace`).
* `Array.prototype.slice` with possibly negative arguments is `jsSlice`.
* `Array.prototype.sort` (required to be stable since ES2019) is modelled
  by a stable insertion sort; for a comparator induced by a total preorder
  the stable-sorted result is unique, so any stable sort is faithful.
* `parseFloat` / `Number` / `Date.parse` are modelled over exact rationals
  (binary64 rounding is not modelled); `Date.parse` is modelled on the
  ES-mandated ISO `YYYY-MM-DD` date form with a monotone encoding.
The parser loop of `parseCSV` is written with an explicit fuel argument;
the top-level entry point supplies fuel equal to the input length, which
is always sufficient because every loop iteration consumes at least one
character.
-/

/-! ### JavaScript string helpers -/

/-- The characters removed by `String.prototype.trim` (JS WhiteSpace and
LineTerminator code points). -/
def isJSWhitespace (c : Char) : Bool :=
  c == ' ' || c == '\t' || c == '\n' || c == '\r' || c == '\x0b' || c == '\x0c' ||
  c == '\u00A0' || c == '\uFEFF' || c == '\u1680' ||
  (0x2000 ≤ c.toNat && c.toNat ≤ 0x200A) ||
  c == '\u2028' || c == '\u2029' || c == '\u202F' || c == '\u205F' || c == '\u3000'

/-- `String.prototype.trim` on a character list. -/
def jsTrimL (cs : List Char) : List Char :=
  ((cs.dropWhile isJSWhitespace).reverse.dropWhile isJSWhitespace).reverse

/-- `String.prototype.trim`. -/
def jsTrim (s : String) : String :=
  (jsTrimL s.toList).asString

/-! ### `escapeCSVField` (lib.js 195-201) -/

/-- Does the field need quoting: contains comma, double quote, LF or CR. -/
def needsQuoteL (s : List Char) : Bool :=
  s.any (fun c => c == ',' || c == '"' || c == '\n' || c == '\r')

/-- `s.replace(/"/g, '""')`: double every double-quote character. -/
def dquote : List Char → List Char
  | [] => []
  | c :: t => if c = '"' then '"' :: '"' :: dquote t else c :: dquote t

/-- `escapeCSVField` on character lists: wrap in quotes (doubling inner
quotes) when the value contains a comma, quote, LF or CR. -/
def escapeCSVFieldL (s : List Char) : List Char :=
  if needsQuoteL s then '"' :: (dquote s ++ ['"']) else s

/-- `escapeCSVField` (lib.js 195-201); the argument is already a string. -/
def escapeCSVField (s : String) : String :=
  (escapeCSVFieldL s.toList).asString

/-! ### CSV export (`exportCSV`, app.js 356-374) -/

/-- `Array.prototype.join(sep)`. -/
def joinWith (sep : List Char) : List (List Char) → List Char
  | [] => []
  | [x] => x
  | x :: y :: xs => x ++ sep ++ joinWith sep (y :: xs)

/-- One exported data line: `headers.map((_, c) => escapeCSVField(row[c])).join(',')`.
A missing field (`row[c]` undefined) stringifies to the empty string. -/
def serRowL (ncols : Nat) (r : List (List Char)) : List Char :=
  joinWith [','] ((List.range ncols).map (fun c => escapeCSVFieldL (r.getD c [])))

/-- The exported text of `exportCSV` (app.js): BOM, then the escaped header
line and the escaped data lines joined with CRLF. -/
def serializeL (headers : List (List Char)) (rows : List (List (List Char))) : List Char :=
  '\uFEFF' :: joinWith ['\r', '\n']
    (joinWith [','] (headers.map escapeCSVFieldL) :: rows.map (serRowL headers.length))

/-- String-level CSV serialization as performed by `exportCSV`. -/
def serializeCSV (headers : List String) (rows : List (List String)) : String :=
  (serializeL (headers.map String.toList) (rows.map (fun r => r.map String.toList))).asString

/-! ### `parseCSV` (lib.js 6-67) -/

/-- Strip a single leading byte-order mark (lib.js 8). -/
def stripBOM (cs : List Char) : List Char :=
  match cs with
  | [] => []
  | c :: t => if c = '\uFEFF' then t else c :: t

/-- `text.split(/\r?\n/)[0]`: everything before the first `'\n'`, with a
`'\r'` immediately preceding that `'\n'` also removed.  A lone `'\r'` does
not end the line for delimiter detection. -/
def firstLine (cs : List Char) : List Char :=
  let p := cs.takeWhile (fun c => c ≠ '\n')
  if p.length = cs.length then p
  else if p.getLast? = some '\r' then p.dropLast else p

/-- Delimiter auto-detection (lib.js 10-18): count each candidate in the
first line, keep the first candidate with a strictly larger count than all
earlier ones; default comma. -/
def detectDelim (cs : List Char) : Char :=
  let fl := firstLine cs
  (([',', ';', '\t', '|'].foldl
    (fun (acc : Char × Nat) d =>
      if fl.count d > acc.2 then (d, fl.count d) else acc) (',', 0))).1

/-- Body of a quoted field (lib.js 29-43): consume until an unescaped
closing quote; `""` is a literal quote.  Returns the field content and the
remaining input after the closing quote (or at end of input). -/
def parseQuotedBody : List Char → List Char × List Char
  | [] => ([], [])
  | c :: t =>
    if c = '"' then
      match t with
      | [] => ([], [])
      | c2 :: t2 =>
        if c2 = '"' then
          let r := parseQuotedBody t2
          ('"' :: r.1, r.2)
        else ([], t)
    else
      let r := parseQuotedBody t
      (c :: r.1, r.2)

/-- The inner field loop of `parseCSV` (lib.js 26-60): parse the fields of
one record, returning the fields and the input after the record's
terminator.  The fuel argument only bounds recursion; every recursive call
consumes input, so fuel `≥` input length is always sufficient. -/
def parseFields (delim : Char) : Nat → List Char → List (List Char) × List Char
  | 0, _ => ([], [])
  | _ + 1, [] => ([], [])
  | fuel + 1, c :: t =>
    if c = '"' then
      let q := parseQuotedBody t
      match q.2 with
      | [] => ([q.1], [])
      | r :: rt =>
        if r = delim then
          let p := parseFields delim fuel rt
          (q.1 :: p.1, p.2)
        else if r = '\r' then
          if rt.head? = some '\n' then ([q.1], rt.tail) else ([q.1], rt)
        else if r = '\n' then ([q.1], rt)
        else
          -- no branch of lib.js 45-47 fires: the loop continues in the
          -- same record at the unconsumed character
          let p := parseFields delim fuel (r :: rt)
          (q.1 :: p.1, p.2)
    else
      let body := (c :: t).takeWhile (fun x => !(x == delim || x == '\r' || x == '\n'))
      let rest := (c :: t).dropWhile (fun x => !(x == delim || x == '\r' || x == '\n'))
      let field := jsTrimL body
      match rest with
      | [] => ([field], [])
      | r :: rt =>
        if r = delim then
          let p := parseFields delim fuel rt
          (field :: p.1, p.2)
        else if r = '\r' then
          if rt.head? = some '\n' then ([field], rt.tail) else ([field], rt)
        else ([field], rt)

/-- The outer record loop of `parseCSV` (lib.js 24-64): parse records until
the input is exhausted, discarding any record that is a single empty
field. -/
def parseRows (delim : Char) : Nat → List Char → List (List (List Char))
  | 0, _ => []
  | _ + 1, [] => []
  | fuel + 1, c :: t =>
    let p := parseFields delim (c :: t).length (c :: t)
    let rest := parseRows delim fuel p.2
    if p.1 = [] ∨ p.1 = [[]] then rest else p.1 :: rest

/-- Result of `parseCSV`: the parsed rows and the detected delimiter. -/
structure ParseResult where
  rows : List (List String)
  delim : Char
deriving DecidableEq, Repr

/-- `parseCSV` (lib.js 6-67). -/
def parseCSV (text : String) : ParseResult :=
  let cs := stripBOM text.toList
  let d := detectDelim cs
  { rows := (parseRows d cs.length cs).map (fun r => r.map List.asString)
    delim := d }

/-! ### `buildData` (lib.js 72-77) -/

/-- A built table: headers and data body. -/
structure Table where
  headers : List String
  data : List (List String)
deriving DecidableEq, Repr

/-- `rows[0].map((h, i) => h || Column (i+1))` written as a recursion
carrying the 0-based position. -/
def synthHeaders : Nat → List String → List String
  | _, [] => []
  | i, h :: t =>
    (if h = "" then "Column " ++ toString (i + 1) else h) :: synthHeaders (i + 1) t

/-- `buildData` (lib.js 72-77). -/
def buildData (rows : List (List String)) : Table :=
  match rows with
  | [] => { headers := [], data := [] }
  | r0 :: rest => { headers := synthHeaders 0 r0, data := rest }

/-! Sanity checks mirroring the repository's own test scenarios. -/

example : (parseCSV "a,b,c\n1,2,3").rows = [["a", "b", "c"], ["1", "2", "3"]] := by decide
example : (parseCSV "a,b,c\n1,2,3").delim = ',' := by decide
example : (parseCSV "a;b;c\n1;2;3").delim = ';' := by decide
example : (parseCSV "a;b;c\n1;2;3").rows = [["a", "b", "c"], ["1", "2", "3"]] := by decide
example : (parseCSV "\uFEFFa,b\n1,2").rows = [["a", "b"], ["1", "2"]] := by decide
example : (parseCSV "a,b\n1,2\n").rows = [["a", "b"], ["1", "2"]] := by decide
example : (parseCSV "").rows = [] := by decide
example : (parseCSV "\"a,b\",c\n\"1,2\",3").rows = [["a,b", "c"], ["1,2", "3"]] := by decide
example : (parseCSV "\"he said \"\"hi\"\"\",\"ok\"\nval,val2").rows
    = [["he said \"hi\"", "ok"], ["val", "val2"]] := by decide
example : (parseCSV "\"line1\nline2\",after").rows = [["line1\nline2", "after"]] := by decide
example : (parseCSV "  a  ,  b  \n  1  ,  2  ").rows = [["a", "b"], ["1", "2"]] := by decide
example : (parseCSV "a,,c\n1,,3").rows = [["a", "", "c"], ["1", "", "3"]] := by decide
example : escapeCSVField "say \"hi\"" = "\"say \"\"hi\"\"\"" := by decide
example : escapeCSVField "hello" = "hello" := by decide
example : buildData [["", "b", ""], ["1", "2", "3"]]
    = { headers := ["Column 1", "b", "Column 3"], data := [["1", "2", "3"]] } := by decide
example : serializeCSV ["name", "note"] [["Alice", "a,b"]]
    = "\uFEFFname,note\r\nAlice,\"a,b\"" := by decide

/-! ### `filterRows` (lib.js 111-125) -/

/-- `String.prototype.toLowerCase`, modelled by the ASCII case mapping. -/
def toLowerStr (s : String) : String :=
  (s.toList.map Char.toLower).asString

/-- Substring test on character lists: `hasSubstr sub hay` holds when
`sub` occurs contiguously in `hay`. -/
def hasSubstr (sub : List Char) : List Char → Bool
  | [] => sub.isEmpty
  | c :: t => List.isPrefixOf sub (c :: t) || hasSubstr sub t

/-- `s.includes(sub)`. -/
def jsIncludes (s sub : String) : Bool :=
  hasSubstr sub.toList s.toList

/-- `filterRows` (lib.js 111-125).  A row passes when the global search is
empty or some cell contains it case-insensitively, and every per-column
filter that is non-empty (over the header columns) is contained in that
column's cell case-insensitively.  Missing cells read as the empty
string. -/
def filterRows (data : List (List String)) (headers : List String)
    (globalSearch : String) (colFilters : List String) : List (List String) :=
  let gLower := toLowerStr globalSearch
  let colLowers := colFilters.map toLowerStr
  let colCount := headers.length
  data.filter (fun row =>
    (gLower == "" || row.any (fun cell => jsIncludes (toLowerStr cell) gLower)) &&
    (List.range colCount).all (fun c =>
      let f := colLowers.getD c ""
      f == "" || jsIncludes (toLowerStr (row.getD c "")) f))

/-! ### Pagination (lib.js 158-189) -/

/-- `Array.prototype.slice(start, stop)` including the JS treatment of
negative indices (counted from the end, clipped at the bounds). -/
def jsSlice {α : Type} (l : List α) (start stop : Int) : List α :=
  let len : Int := l.length
  let s := if start < 0 then max (len + start) 0 else min start len
  let e := if stop < 0 then max (len + stop) 0 else min stop len
  (l.take e.toNat).drop s.toNat

/-- `getPageSlice` (lib.js 177-181): `pageSize === 0` shows all rows,
otherwise `filtered.slice(start, start + pageSize)` with
`start = (page-1)*pageSize`. -/
def getPageSlice {α : Type} (filtered : List α) (page pageSize : Int) : List α :=
  if pageSize = 0 then filtered
  else jsSlice filtered ((page - 1) * pageSize) ((page - 1) * pageSize + pageSize)

/-- `calcTotalPages` (lib.js 186-189).  `Math.ceil` of the quotient: for
the integer counts involved, binary64 division followed by `Math.ceil`
agrees with the exact rational ceiling. -/
def calcTotalPages (filteredCount : Nat) (pageSize : Int) : Int :=
  if pageSize = 0 then 1
  else max 1 ⌈(filteredCount : ℚ) / (pageSize : ℚ)⌉

/-- Entry of the page-button list: a page number or the `'…'` marker. -/
inductive PageItem
  | page (n : Nat)
  | ellipsis
deriving DecidableEq, Repr

/-- The `addEllipsis` closure of `buildPageList` (lib.js 162): append a
marker only when the last entry is not already a marker. -/
def addEllipsis (r : List PageItem) : List PageItem :=
  if r.getLast? = some PageItem.ellipsis then r else r ++ [PageItem.ellipsis]

/-- `buildPageList` (lib.js 158-171). -/
def buildPageList (cur total : Nat) : List PageItem :=
  if total ≤ 7 then (List.range' 1 total).map PageItem.page
  else
    let r1 := [PageItem.page 1]
    let r2 := if 3 < cur then addEllipsis r1 else r1
    let lo := max 2 (cur - 1)
    let hi := min (total - 1) (cur + 1)
    let r3 := r2 ++ (List.range' lo (hi + 1 - lo)).map PageItem.page
    let r4 := if cur < total - 2 then addEllipsis r3 else r3
    r4 ++ [PageItem.page total]

/-! ### JavaScript numeric and date parsing

`parseFloat` and `Number` produce binary64 values; they are modelled
exactly over decimal values `m * 10^e` extended with the two infinities
(binary64 rounding is not modelled).  `NaN` is `Option.none` at the parser
level. -/

/-- A JavaScript comparison key: `-Infinity`, a finite decimal value
`m * 10^e`, or `+Infinity`. -/
inductive JsNum
  | negInf
  | fin (m : Int) (e : Int)
  | posInf
deriving DecidableEq, Repr

/-- Order on `JsNum` values, decided by cross-multiplying with powers of
ten. -/
def JsNum.le : JsNum → JsNum → Bool
  | JsNum.negInf, _ => true
  | JsNum.fin _ _, JsNum.negInf => false
  | JsNum.fin m1 e1, JsNum.fin m2 e2 =>
    if e1 ≤ e2 then m1 ≤ m2 * (10 : Int) ^ (e2 - e1).toNat
    else m1 * (10 : Int) ^ (e1 - e2).toNat ≤ m2
  | JsNum.fin _ _, JsNum.posInf => true
  | JsNum.posInf, JsNum.posInf => true
  | JsNum.posInf, _ => false

/-- Interpretation of a `JsNum` in the extended rationals
(`⊥ = -Infinity`, `some ⊤ = +Infinity`), used to state and prove order
properties. -/
def JsNum.interp : JsNum → WithBot (WithTop ℚ)
  | JsNum.negInf => ⊥
  | JsNum.fin m e => (((m : ℚ) * (10 : ℚ) ^ e : ℚ) : WithTop ℚ)
  | JsNum.posInf => ((⊤ : WithTop ℚ) : WithBot (WithTop ℚ))

/-- Numeric value of a list of decimal digit characters. -/
def natOfDigits (ds : List Char) : Nat :=
  ds.foldl (fun a c => a * 10 + (c.toNat - 48)) 0

/-- Optional exponent part `e`/`E`, optional sign, digits.  Returns the
exponent and the remaining input; consumes nothing when no well-formed
exponent follows (longest-valid-prefix semantics). -/
def parseExpPart (cs : List Char) : Int × List Char :=
  match cs with
  | c :: t =>
    if c = 'e' ∨ c = 'E' then
      match t with
      | s :: t2 =>
        if s = '+' ∨ s = '-' then
          let ds := t2.takeWhile Char.isDigit
          if ds = [] then (0, cs)
          else ((if s = '-' then -(natOfDigits ds : Int) else (natOfDigits ds : Int)),
                t2.dropWhile Char.isDigit)
        else
          let ds := t.takeWhile Char.isDigit
          if ds = [] then (0, cs)
          else ((natOfDigits ds : Int), t.dropWhile Char.isDigit)
      | [] => (0, cs)
    else (0, cs)
  | [] => (0, cs)

/-- Unsigned decimal literal `digits [. digits] [exp]` or `. digits [exp]`:
returns the value as a mantissa/decimal-exponent pair together with the
remaining input, or `none` when no digits occur. -/
def parseUnsignedDec (cs : List Char) : Option ((Int × Int) × List Char) :=
  let ip := cs.takeWhile Char.isDigit
  let r1 := cs.dropWhile Char.isDigit
  let fr : List Char × List Char :=
    match r1 with
    | '.' :: t => (t.takeWhile Char.isDigit, t.dropWhile Char.isDigit)
    | _ => ([], r1)
  if ip = [] ∧ fr.1 = [] then none
  else
    let ex := parseExpPart fr.2
    some (((natOfDigits ip * 10 ^ fr.1.length + natOfDigits fr.1 : Nat),
           ex.1 - fr.1.length), ex.2)

/-- `parseFloat`: skip leading whitespace, optional sign, `Infinity`
literal or decimal literal as the longest valid prefix; `none` is `NaN`. -/
def jsParseFloat (s : List Char) : Option JsNum :=
  let cs := s.dropWhile isJSWhitespace
  let sgn : Bool × List Char :=
    match cs with
    | '+' :: t => (false, t)
    | '-' :: t => (true, t)
    | _ => (false, cs)
  if sgn.2.take 8 = "Infinity".toList then
    some (if sgn.1 then JsNum.negInf else JsNum.posInf)
  else
    match parseUnsignedDec sgn.2 with
    | none => none
    | some p => some (JsNum.fin (if sgn.1 then -p.1.1 else p.1.1) p.1.2)

/-- Hexadecimal digit test. -/
def isHexDigit (c : Char) : Bool :=
  c.isDigit || ('a' ≤ c && c ≤ 'f') || ('A' ≤ c && c ≤ 'F')

/-- Hexadecimal digit value. -/
def hexDigitVal (c : Char) : Nat :=
  if c.isDigit then c.toNat - 48
  else if 'a' ≤ c && c ≤ 'f' then c.toNat - 87
  else c.toNat - 55

/-- Value of a hexadecimal digit string. -/
def natOfHex (ds : List Char) : Nat := ds.foldl (fun a c => a * 16 + hexDigitVal c) 0

/-- Value of an octal digit string. -/
def natOfOct (ds : List Char) : Nat := ds.foldl (fun a c => a * 8 + (c.toNat - 48)) 0

/-- Value of a binary digit string. -/
def natOfBin (ds : List Char) : Nat := ds.foldl (fun a c => a * 2 + (c.toNat - 48)) 0

/-- Signed decimal/`Infinity` branch of `Number`, requiring the whole
input to be consumed (unlike `parseFloat`'s prefix semantics). -/
def jsNumberDec (cs : List Char) : Option JsNum :=
  let sgn : Bool × List Char :=
    match cs with
    | '+' :: t => (false, t)
    | '-' :: t => (true, t)
    | _ => (false, cs)
  if sgn.2 = "Infinity".toList then
    some (if sgn.1 then JsNum.negInf else JsNum.posInf)
  else
    match parseUnsignedDec sgn.2 with
    | none => none
    | some p =>
      if p.2 = [] then some (JsNum.fin (if sgn.1 then -p.1.1 else p.1.1) p.1.2) else none

/-- `Number(string)` (ToNumber on a string): trim; empty is `0`; unsigned
hex/octal/binary literals; otherwise a full-string signed decimal or
`Infinity` literal; `none` is `NaN`. -/
def jsNumber (s : String) : Option JsNum :=
  let cs := jsTrimL s.toList
  match cs with
  | [] => some (JsNum.fin 0 0)
  | '0' :: x :: t =>
    if x = 'x' ∨ x = 'X' then
      if t ≠ [] ∧ t.all isHexDigit then some (JsNum.fin (natOfHex t) 0) else none
    else if x = 'o' ∨ x = 'O' then
      if t ≠ [] ∧ t.all (fun c => '0' ≤ c && c ≤ '7') then some (JsNum.fin (natOfOct t) 0)
      else none
    else if x = 'b' ∨ x = 'B' then
      if t ≠ [] ∧ t.all (fun c => c == '0' || c == '1') then some (JsNum.fin (natOfBin t) 0)
      else none
    else jsNumberDec cs
  | _ => jsNumberDec cs

/-- `string.replace(/,/g, '')`. -/
def stripCommas (s : String) : String :=
  (s.toList.filter (fun c => c != ',')).asString

/-- Sort key of the `number` branch of `sortRows` (lib.js 140-142): strip
commas, `parseFloat`, `NaN` becomes `-Infinity`. -/
def numKey (s : String) : JsNum :=
  match jsParseFloat (stripCommas s).toList with
  | none => JsNum.negInf
  | some v => v

/-- `Date.parse`, modelled on the ES-mandated ISO `YYYY-MM-DD` date form
(other host-specific formats are not modelled).  The returned value is a
monotone encoding of the date, standing in for the epoch timestamp. -/
def jsDateParse (s : String) : Option Nat :=
  match s.toList with
  | [y1, y2, y3, y4, '-', m1, m2, '-', d1, d2] =>
    if y1.isDigit && y2.isDigit && y3.isDigit && y4.isDigit &&
       m1.isDigit && m2.isDigit && d1.isDigit && d2.isDigit then
      let m := natOfDigits [m1, m2]
      let d := natOfDigits [d1, d2]
      if 1 ≤ m ∧ m ≤ 12 ∧ 1 ≤ d ∧ d ≤ 31 then
        some (natOfDigits [y1, y2, y3, y4] * 10000 + m * 100 + d)
      else none
    else none
  | _ => none

/-- Sort key of the `date` branch of `sortRows` (lib.js 144-146):
`Date.parse`, `NaN` becomes `-Infinity`. -/
def dateKey (s : String) : JsNum :=
  match jsDateParse s with
  | none => JsNum.negInf
  | some n => JsNum.fin n 0

/-! ### `sortRows` (lib.js 130-152) -/

/-- Fueled natural comparison modelling
`localeCompare(undefined, \x7b sensitivity: base, numeric: true \x7d)` for
ASCII strings: maximal digit runs compare numerically, other characters
compare case-insensitively. -/
def natCmpF : Nat → List Char → List Char → Ordering
  | 0, _, _ => Ordering.eq
  | _ + 1, [], [] => Ordering.eq
  | _ + 1, [], _ :: _ => Ordering.lt
  | _ + 1, _ :: _, [] => Ordering.gt
  | fuel + 1, x :: xs, y :: ys =>
    if x.isDigit && y.isDigit then
      let da := (x :: xs).takeWhile Char.isDigit
      let db := (y :: ys).takeWhile Char.isDigit
      let c := compare (natOfDigits da) (natOfDigits db)
      if c = Ordering.eq then
        natCmpF fuel ((x :: xs).dropWhile Char.isDigit) ((y :: ys).dropWhile Char.isDigit)
      else c
    else
      let c := compare x.toLower y.toLower
      if c = Ordering.eq then natCmpF fuel xs ys else c

/-- Natural (locale-style) string comparison; fuel is always sufficient. -/
def natCmp (a b : List Char) : Ordering :=
  natCmpF (a.length + b.length + 1) a b

/-- Column type as detected by `detectColTypes`. -/
inductive ColType
  | number
  | date
  | string
deriving DecidableEq, Repr

/-- The comparator of `sortRows` (lib.js 134-151) as a boolean "may come
first" relation: `sortLe t col dir a b` holds when the JS comparator value
for `(a, b)` is `≤ 0` (ES `SortCompare` maps a `NaN` comparator result to
`+0`, so two `-Infinity` keys compare equal; subtraction of equal
infinities yields `NaN`, which is why the key order on `JsNum` matches the
subtraction-based comparator exactly).  A direction other than `'asc'`
flips the sign. -/
def sortLe (t : ColType) (col : Nat) (sortDir : String) (a b : List String) : Bool :=
  let av := jsTrim (a.getD col "")
  let bv := jsTrim (b.getD col "")
  if sortDir == "asc" then
    match t with
    | ColType.number => JsNum.le (numKey av) (numKey bv)
    | ColType.date => JsNum.le (dateKey av) (dateKey bv)
    | ColType.string => !(natCmp av.toList bv.toList == Ordering.gt)
  else
    match t with
    | ColType.number => JsNum.le (numKey bv) (numKey av)
    | ColType.date => JsNum.le (dateKey bv) (dateKey av)
    | ColType.string => !(natCmp av.toList bv.toList == Ordering.lt)

/-- `sortRows` (lib.js 130-152).  `Array.prototype.sort` is stable
(required since ES2019); it is modelled by Mathlib's stable insertion
sort, which for a comparator induced by a total preorder produces the
unique stable result.  A column index outside `colTypes` has undefined
type, which the source coerces to `'string'`. -/
def sortRows (rows : List (List String)) (sortCol : Int) (sortDir : String)
    (colTypes : List ColType) : List (List String) :=
  if sortCol < 0 ∨ sortDir == "none" then rows
  else
    let t := colTypes.getD sortCol.toNat ColType.string
    List.insertionSort (fun a b => sortLe t sortCol.toNat sortDir a b = true) rows

/-! ### `detectColTypes` (lib.js 83-106) -/

/-- One step of the counter loop of `detectColTypes` (lib.js 90-97): skip
empty trimmed values, otherwise bump `total` and one of `numOk`/`dateOk`
(numeric check first). -/
def detectStep (c : Nat) (acc : Nat × Nat × Nat) (row : List String) : Nat × Nat × Nat :=
  let val := jsTrim (row.getD c "")
  if val = "" then acc
  else
    if (jsNumber (stripCommas val)).isSome then (acc.1 + 1, acc.2.1 + 1, acc.2.2)
    else if (jsDateParse val).isSome then (acc.1 + 1, acc.2.1, acc.2.2 + 1)
    else (acc.1 + 1, acc.2.1, acc.2.2)

/-- `detectColTypes` (lib.js 83-106): sample the first 500 rows; per
column count non-empty trimmed values (`total`), those accepted by
`Number` after comma stripping (`numOk`) and, among the rest, those
accepted by `Date.parse` (`dateOk`); classify by the 80% thresholds.  The
source compares `numOk / total >= 0.8` in binary64; for the counts
involved that comparison coincides with the exact comparison
`5 * numOk ≥ 4 * total`: the quotient of two naturals is either exactly
`4/5` (in which case the correctly rounded binary64 quotient equals the
binary64 literal `0.8`) or at distance at least `1/(5*total)` from it,
far outside one unit in the last place for `total ≤ 500`. -/
def detectColTypes (headers : List String) (data : List (List String)) : List ColType :=
  let sample := data.take 500
  (List.range headers.length).map (fun c =>
    let acc := sample.foldl (detectStep c) (0, 0, 0)
    if acc.1 = 0 then ColType.string
    else if 5 * acc.2.1 ≥ 4 * acc.1 then ColType.number
    else if 5 * acc.2.2 ≥ 4 * acc.1 then ColType.date
    else ColType.string)

/-! Sanity checks mirroring the repository's test scenarios. -/

example : getPageSlice [["a"], ["b"], ["c"], ["d"], ["e"]] 2 2 = [["c"], ["d"]] := by decide
example : getPageSlice [["a"], ["b"], ["c"], ["d"], ["e"]] 3 2 = [["e"]] := by decide
example : getPageSlice [["a"], ["b"], ["c"], ["d"], ["e"]] 99 2 = [] := by decide
example : getPageSlice [["a"], ["b"], ["c"], ["d"], ["e"]] 1 0
    = [["a"], ["b"], ["c"], ["d"], ["e"]] := by decide
example : buildPageList 10 20 = [PageItem.page 1, PageItem.ellipsis, PageItem.page 9,
    PageItem.page 10, PageItem.page 11, PageItem.ellipsis, PageItem.page 20] := by decide
example : buildPageList 1 8 = [PageItem.page 1, PageItem.page 2, PageItem.ellipsis,
    PageItem.page 8] := by decide
example : buildPageList 1 7 = [PageItem.page 1, PageItem.page 2, PageItem.page 3,
    PageItem.page 4, PageItem.page 5, PageItem.page 6, PageItem.page 7] := by decide
example : buildPageList 20 20 = [PageItem.page 1, PageItem.ellipsis, PageItem.page 19,
    PageItem.page 20] := by decide
example : (filterRows [["Alice", "30"], ["Bob", "25"]] ["name", "age"] "ALICE" []).length = 1 := by
  decide
example : filterRows [["Alice", "30"], ["Bob", "25"]] ["name", "age"] "" ["ob", ""]
    = [["Bob", "25"]] := by decide
example : jsNumber "1000" = some (JsNum.fin 1000 0) := by decide
example : stripCommas "1,000" = "1000" := by decide
example : (jsNumber "hello").isSome = false := by decide
example : (jsDateParse "2023-01-01").isSome = true := by decide
example : (jsDateParse "2023-13-01").isSome = false := by decide
example : detectColTypes ["n"] [["1,000"], ["2,500"], ["10,000"]] = [ColType.number] := by decide
example : detectColTypes ["d"] [["2023-01-01"], ["2023-06-15"], ["2024-12-31"]]
    = [ColType.date] := by decide
example : detectColTypes ["s"] [["hello"], ["world"], ["foo"], ["bar"]]
    = [ColType.string] := by decide
example : detectColTypes ["e"] [[""], [""], [""]] = [ColType.string] := by decide
example : detectColTypes ["num", "str", "date"]
    [["1", "hello", "2023-01-01"], ["2", "world", "2023-06-15"]]
    = [ColType.number, ColType.string, ColType.date] := by decide
example : sortRows [["5"], [""], ["3"], [""]] 0 "asc" [ColType.number]
    = [[""], [""], ["3"], ["5"]] := by decide
example : sortRows [["Charlie"], ["Alice"], ["Bob"]] 0 "asc" [ColType.string]
    = [["Alice"], ["Bob"], ["Charlie"]] := by decide
example : sortRows [["10"], ["9"], ["2"], ["100"]] 0 "asc" [ColType.string]
    = [["2"], ["9"], ["10"], ["100"]] := by decide
example : sortRows [["35"], ["10"], ["200"], ["1"]] 0 "desc" [ColType.number]
    = [["200"], ["35"], ["10"], ["1"]] := by decide
example : sortRows [["2020-03-01"], ["2022-01-15"], ["2019-07-04"]] 0 "asc" [ColType.date]
    = [["2019-07-04"], ["2020-03-01"], ["2022-01-15"]] := by decide
example : sortRows [["b"], ["a"], ["c"]] 0 "none" [ColType.string]
    = [["b"], ["a"], ["c"]] := by decide
example : sortRows [["b"], ["a"], ["c"]] (-1) "asc" [ColType.string]
    = [["b"], ["a"], ["c"]] := by decide

/-! ### Helper lemmas for pagination -/

/-- `jsSlice` with non-negative bounds is plain drop/take. -/
theorem jsSlice_of_nonneg {α : Type} (l : List α) (s k : Int) (hs : 0 ≤ s) (hk : 0 ≤ k) :
    jsSlice l s (s + k) = (l.drop s.toNat).take k.toNat := by
  unfold jsSlice
  dsimp only
  rw [if_neg (by omega), if_neg (by omega)]
  rw [List.drop_take]
  rcases le_or_lt s (l.length : Int) with hsn | hsn
  · have hmin : min s (l.length : Int) = s := min_eq_left hsn
    rw [hmin]
    rcases le_or_lt (s + k) (l.length : Int) with hskn | hskn
    · have : min (s + k) (l.length : Int) = s + k := min_eq_left hskn
      rw [this]
      congr 1
      omega
    · have : min (s + k) (l.length : Int) = (l.length : Int) := min_eq_right (by omega)
      rw [this]
      have hlen : (l.drop s.toNat).length = l.length - s.toNat := List.length_drop ..
      rw [List.take_of_length_le (by omega), List.take_of_length_le (by omega)]
  · have hmin : min s (l.length : Int) = (l.length : Int) := min_eq_right (by omega)
    rw [hmin]
    have h1 : l.drop ((l.length : Int)).toNat = [] := List.drop_eq_nil_of_le (by omega)
    have h2 : l.drop s.toNat = [] := List.drop_eq_nil_of_le (by omega)
    rw [h1, h2, List.take_nil, List.take_nil]

/-- For a positive page size and a page `≥ 1`, `getPageSlice` is the
half-open slice `[(page-1)*pageSize, page*pageSize)` clipped to the
available rows. -/
theorem getPageSlice_pos {α : Type} (rows : List α) (page pageSize : Int)
    (hk : 0 < pageSize) (hp : 1 ≤ page) :
    getPageSlice rows page pageSize
      = (rows.drop ((page - 1) * pageSize).toNat).take pageSize.toNat := by
  unfold getPageSlice
  rw [if_neg (by omega)]
  exact jsSlice_of_nonneg rows _ _ (mul_nonneg (by omega) (by omega)) (by omega)

/-! ### Claim C2 -/

/-- C2 counterexample: the claim states that every out-of-range page —
including any page less than 1 — yields an empty slice, but JavaScript's
`Array.prototype.slice` interprets the negative start produced by
`page = -1` relative to the end of the array: with three rows and page
size 1 the result is `[["b"]]`, not `[]`. -/
theorem getPageSlice_neg_page_counterexample :
    getPageSlice [["a"], ["b"], ["c"]] (-1) 1 = [["b"]] ∧
    getPageSlice [["a"], ["b"], ["c"]] (-1) 1 ≠ [] := by decide

/-- C2 (amended): `pageSize = 0` returns all rows; for `pageSize > 0` and
`page ≥ 1` the result is the half-open slice `[(page-1)*pageSize,
page*pageSize)` clipped to the available rows — in particular it is empty
for every page past the data — and page `0` also yields an empty slice.
(For negative pages the source inherits JS end-relative slicing and can
return a non-empty slice, so the original "empty for every page less
than 1" is weakened to `page = 0`.) -/
theorem getPageSlice_spec {α : Type} (rows : List α) (page pageSize : Int) :
    (pageSize = 0 → getPageSlice rows page pageSize = rows) ∧
    (0 < pageSize → 1 ≤ page →
      getPageSlice rows page pageSize
        = (rows.drop ((page - 1) * pageSize).toNat).take pageSize.toNat) ∧
    (0 < pageSize → 1 ≤ page → (rows.length : Int) ≤ (page - 1) * pageSize →
      getPageSlice rows page pageSize = []) ∧
    (0 < pageSize → page = 0 → getPageSlice rows page pageSize = []) := by
  refine ⟨fun h0 => by simp [getPageSlice, h0], fun hk hp => getPageSlice_pos rows page pageSize hk hp,
    fun hk hp hout => ?_, fun hk hp => ?_⟩
  · rw [getPageSlice_pos rows page pageSize hk hp]
    rw [List.drop_eq_nil_of_le (by omega), List.take_nil]
  · subst hp
    unfold getPageSlice jsSlice
    rw [if_neg (by omega)]
    have h1 : (0 - 1) * pageSize + pageSize = 0 := by ring
    rw [h1]
    simp

/-- C2 witness: instantiation at page 2, page size 2, three rows. -/
theorem getPageSlice_spec_witness :
    (0 : Int) < 2 ∧ (1 : Int) ≤ 2 ∧
    getPageSlice [["a"], ["b"], ["c"]] 2 2
      = (([["a"], ["b"], ["c"]] : List (List String)).drop (((2 : Int) - 1) * 2).toNat).take
          ((2 : Int)).toNat :=
  ⟨by decide, by decide,
    (getPageSlice_spec [["a"], ["b"], ["c"]] 2 2).2.1 (by decide) (by decide)⟩

/-! ### Claim C10 -/

/-- C10: the output of `sortRows` is a permutation of its input — every
row occurs in the output exactly as many times as in the input, for every
sort column, direction and type map, including inconsistent comparator
cases such as two unparseable values in a number column. -/
theorem sortRows_count (rows : List (List String)) (sortCol : Int) (sortDir : String)
    (colTypes : List ColType) (v : List String) :
    (sortRows rows sortCol sortDir colTypes).count v = rows.count v := by
  by_cases h : sortCol < 0 ∨ sortDir == "none"
  · unfold sortRows
    rw [if_pos h]
  · unfold sortRows
    rw [if_neg h]
    dsimp only
    exact (List.perm_insertionSort
      (fun a b => sortLe (colTypes.getD sortCol.toNat ColType.string) sortCol.toNat sortDir a b
        = true) rows).countP_eq (fun x => x == v)

/-! ### Claim C8 -/

/-- C8: filtering is idempotent — applying `filterRows` with the same
search and column filters to an already-filtered result changes
nothing. -/
theorem filterRows_idempotent (data : List (List String)) (headers : List String)
    (globalSearch : String) (colFilters : List String) :
    filterRows (filterRows data headers globalSearch colFilters) headers globalSearch colFilters
      = filterRows data headers globalSearch colFilters := by
  unfold filterRows
  rw [List.filter_filter]
  exact List.filter_congr (fun row _ => by rw [Bool.and_self])

/-! ### Claim C9 -/

/-- No two adjacent ellipsis markers. -/
def noAdjEllipsis : List PageItem → Bool
  | PageItem.ellipsis :: PageItem.ellipsis :: _ => false
  | _ :: t => noAdjEllipsis t
  | [] => true

/-- Combined well-formedness check for one page list, used to decide the
bounded claim. -/
def pageListOk (c t : Nat) : Bool :=
  noAdjEllipsis (buildPageList c t) &&
  decide ((buildPageList c t).head? = some (PageItem.page 1)) &&
  decide (1 < t → (buildPageList c t).getLast? = some (PageItem.page t)) &&
  decide (t ≤ 7 → buildPageList c t = (List.range' 1 t).map PageItem.page ∧
    PageItem.ellipsis ∉ buildPageList c t)

set_option maxRecDepth 100000 in
set_option maxHeartbeats 4000000 in
/-- C9: for every `total` in `1..100` and `current` in `1..total`, the
page list has no two adjacent ellipsis markers, starts with page 1, ends
with page `total` whenever `total > 1`, and for `total ≤ 7` is exactly
`1..total` with no ellipsis at all. -/
theorem buildPageList_wellFormed (cur total : Nat) (h1 : 1 ≤ total) (h2 : total ≤ 100)
    (h3 : 1 ≤ cur) (h4 : cur ≤ total) :
    noAdjEllipsis (buildPageList cur total) = true ∧
    (buildPageList cur total).head? = some (PageItem.page 1) ∧
    (1 < total → (buildPageList cur total).getLast? = some (PageItem.page total)) ∧
    (total ≤ 7 → buildPageList cur total = (List.range' 1 total).map PageItem.page ∧
      PageItem.ellipsis ∉ buildPageList cur total) := by
  have master : ∀ t, t < 101 → ∀ c, c < 101 → 1 ≤ c → c ≤ t → pageListOk c t = true := by
    decide
  have hok := master total (by omega) cur (by omega) h3 h4
  simp only [pageListOk, Bool.and_eq_true, decide_eq_true_eq] at hok
  exact ⟨hok.1.1.1, hok.1.1.2, hok.1.2, hok.2⟩

/-- C9 witness: instantiation at `current = 10`, `total = 20`. -/
theorem buildPageList_wellFormed_witness :
    1 ≤ 20 ∧ 20 ≤ 100 ∧ 1 ≤ 10 ∧ 10 ≤ 20 ∧
    (noAdjEllipsis (buildPageList 10 20) = true ∧
     (buildPageList 10 20).head? = some (PageItem.page 1) ∧
     (1 < 20 → (buildPageList 10 20).getLast? = some (PageItem.page 20)) ∧
     (20 ≤ 7 → buildPageList 10 20 = (List.range' 1 20).map PageItem.page ∧
       PageItem.ellipsis ∉ buildPageList 10 20)) :=
  ⟨by omega, by omega, by omega, by omega,
    buildPageList_wellFormed 10 20 (by omega) (by omega) (by omega) (by omega)⟩

/-! ### Claim C6 -/

/-- Specification-side delimiter selection: the earliest candidate among
`',', ';', tab, '|'` whose count is maximal (so comma when all counts are
zero). -/
def firstMaxDelim (c1 c2 c3 c4 : Nat) : Char :=
  if c1 ≥ c2 ∧ c1 ≥ c3 ∧ c1 ≥ c4 then ','
  else if c2 ≥ c3 ∧ c2 ≥ c4 then ';'
  else if c3 ≥ c4 then '\t' else '|'

/-- The fold of `detectDelim` computes the earliest-maximal candidate. -/
theorem detectDelim_eq (cs : List Char) :
    detectDelim cs = firstMaxDelim ((firstLine cs).count ',') ((firstLine cs).count ';')
      ((firstLine cs).count '\t') ((firstLine cs).count '|') := by
  unfold detectDelim firstMaxDelim
  dsimp only
  simp only [List.foldl]
  generalize (firstLine cs).count ',' = c1
  generalize (firstLine cs).count ';' = c2
  generalize (firstLine cs).count '\t' = c3
  generalize (firstLine cs).count '|' = c4
  split_ifs <;> first | rfl | omega

/-- In every case `firstMaxDelim` returns a candidate of maximal count. -/
theorem firstMaxDelim_cases (c1 c2 c3 c4 : Nat) :
    (firstMaxDelim c1 c2 c3 c4 = ',' ∧ c2 ≤ c1 ∧ c3 ≤ c1 ∧ c4 ≤ c1) ∨
    (firstMaxDelim c1 c2 c3 c4 = ';' ∧ c1 ≤ c2 ∧ c3 ≤ c2 ∧ c4 ≤ c2) ∨
    (firstMaxDelim c1 c2 c3 c4 = '\t' ∧ c1 ≤ c3 ∧ c2 ≤ c3 ∧ c4 ≤ c3) ∨
    (firstMaxDelim c1 c2 c3 c4 = '|' ∧ c1 ≤ c4 ∧ c2 ≤ c4 ∧ c3 ≤ c4) := by
  unfold firstMaxDelim
  split_ifs with hA hB hC
  · exact Or.inl ⟨rfl, by omega⟩
  · exact Or.inr (Or.inl ⟨rfl, by omega⟩)
  · exact Or.inr (Or.inr (Or.inl ⟨rfl, by omega⟩))
  · exact Or.inr (Or.inr (Or.inr ⟨rfl, by omega⟩))

/-- C6: the delimiter chosen by `parseCSV` is the earliest candidate (in
the order comma, semicolon, tab, pipe) with the highest occurrence count
in the first line of the BOM-stripped text, and its count is maximal;
when all counts are zero the delimiter is comma. -/
theorem parseCSV_delim (text : String) :
    (parseCSV text).delim
      = firstMaxDelim ((firstLine (stripBOM text.toList)).count ',')
          ((firstLine (stripBOM text.toList)).count ';')
          ((firstLine (stripBOM text.toList)).count '\t')
          ((firstLine (stripBOM text.toList)).count '|') ∧
    ∀ d ∈ [',', ';', '\t', '|'],
      (firstLine (stripBOM text.toList)).count d
        ≤ (firstLine (stripBOM text.toList)).count (parseCSV text).delim := by
  have hd : (parseCSV text).delim = detectDelim (stripBOM text.toList) := rfl
  rw [hd, detectDelim_eq]
  refine ⟨rfl, ?_⟩
  intro d hmem
  rcases firstMaxDelim_cases ((firstLine (stripBOM text.toList)).count ',')
      ((firstLine (stripBOM text.toList)).count ';')
      ((firstLine (stripBOM text.toList)).count '\t')
      ((firstLine (stripBOM text.toList)).count '|') with
    ⟨he, hb⟩ | ⟨he, hb⟩ | ⟨he, hb⟩ | ⟨he, hb⟩ <;>
    rw [he] <;> fin_cases hmem <;> simp_all

/-! ### Claim C3 -/

/-- Case-insensitive substring containment, as used by `filterRows`. -/
def containsCI (cell pat : String) : Prop :=
  jsIncludes (toLowerStr cell) (toLowerStr pat) = true

instance (cell pat : String) : Decidable (containsCI cell pat) := by
  unfold containsCI; infer_instance

/-- Lowercasing preserves emptiness. -/
theorem toLowerStr_eq_empty_iff (s : String) : toLowerStr s = "" ↔ s = "" := by
  unfold toLowerStr
  rw [String.ext_iff, String.ext_iff]
  show (s.data.map Char.toLower).asString.data = [] ↔ s.data = []
  rw [show ((s.data.map Char.toLower).asString).data = s.data.map Char.toLower from rfl]
  simp

/-- `getD` with default `""` commutes with mapping `toLowerStr`. -/
theorem getD_map_toLowerStr (l : List String) (c : Nat) :
    (l.map toLowerStr).getD c "" = toLowerStr (l.getD c "") := by
  induction l generalizing c with
  | nil => rfl
  | cons h t ih =>
    cases c with
    | zero => rfl
    | succ n => simpa using ih n

/-- C3: `filterRows` returns exactly the rows, in order, whose fields
satisfy the global search (empty, or contained case-insensitively in some
field) and every non-empty per-column filter over the header columns,
missing fields reading as the empty string. -/
theorem filterRows_characterization (data : List (List String)) (headers : List String)
    (g : String) (f : List String) :
    filterRows data headers g f
      = data.filter (fun row => decide (
          (g = "" ∨ ∃ cell ∈ row, containsCI cell g) ∧
          (∀ c, c < headers.length → f.getD c "" ≠ "" →
            containsCI (row.getD c "") (f.getD c "")))) := by
  unfold filterRows
  dsimp only
  refine List.filter_congr fun row hrow => ?_
  simp only [getD_map_toLowerStr]
  rw [Bool.eq_iff_iff]
  simp only [containsCI, Bool.and_eq_true, Bool.or_eq_true, beq_iff_eq, List.any_eq_true,
    List.all_eq_true, List.mem_range, decide_eq_true_eq, toLowerStr_eq_empty_iff,
    or_iff_not_imp_left]

/-! ### Claim C5 -/

/-- The non-empty trimmed values of column `c` among the first 500 data
rows. -/
def colSampleVals (data : List (List String)) (c : Nat) : List String :=
  ((data.take 500).map (fun row => jsTrim (row.getD c ""))).filter (fun v => v != "")

/-- A value counts as numeric for type detection: `Number` accepts it
after comma stripping. -/
def isNumericVal (v : String) : Bool := (jsNumber (stripCommas v)).isSome

/-- A value counts as a date for type detection: it is not numeric and
`Date.parse` accepts it. -/
def isDateVal (v : String) : Bool :=
  !(jsNumber (stripCommas v)).isSome && (jsDateParse v).isSome

/-- `getD` over a map of `List.range`. -/
theorem getD_map_range {β : Type} (fn : Nat → β) (n c : Nat) (d : β) (hc : c < n) :
    ((List.range n).map fn).getD c d = fn c := by
  rw [List.getD_eq_getElem?_getD, List.getElem?_map, List.getElem?_range hc]
  rfl

/-- The counter fold of `detectColTypes` computes the lengths and counts
over the filtered value list. -/
theorem detect_foldl_counts (c : Nat) (rows : List (List String)) :
    ∀ a b d : Nat,
    rows.foldl (detectStep c) (a, b, d)
      = (a + ((rows.map (fun row => jsTrim (row.getD c ""))).filter (fun v => v != "")).length,
         b + ((rows.map (fun row => jsTrim (row.getD c ""))).filter (fun v => v != "")).countP isNumericVal,
         d + ((rows.map (fun row => jsTrim (row.getD c ""))).filter (fun v => v != "")).countP isDateVal) := by
  induction rows with
  | nil => intro a b d; simp
  | cons row rest ih =>
    intro a b d
    rw [List.foldl_cons, List.map_cons, List.filter_cons]
    by_cases hval : jsTrim (row.getD c "") = ""
    · have hstep : detectStep c (a, b, d) row = (a, b, d) := by
        show (if jsTrim (row.getD c "") = "" then (a, b, d)
              else if (jsNumber (stripCommas (jsTrim (row.getD c "")))).isSome then (a + 1, b + 1, d)
              else if (jsDateParse (jsTrim (row.getD c ""))).isSome then (a + 1, b, d + 1)
              else (a + 1, b, d)) = (a, b, d)
        rw [if_pos hval]
      rw [hstep, if_neg (show ¬((jsTrim (row.getD c "") != "") = true) from by
        rw [hval]; exact Bool.false_ne_true)]
      exact ih a b d
    · rw [if_pos (bne_iff_ne.mpr hval)]
      cases hnum : (jsNumber (stripCommas (jsTrim (row.getD c "")))).isSome with
      | true =>
        have hstep : detectStep c (a, b, d) row = (a + 1, b + 1, d) := by
          show (if jsTrim (row.getD c "") = "" then (a, b, d)
                else if (jsNumber (stripCommas (jsTrim (row.getD c "")))).isSome then (a + 1, b + 1, d)
                else if (jsDateParse (jsTrim (row.getD c ""))).isSome then (a + 1, b, d + 1)
                else (a + 1, b, d)) = (a + 1, b + 1, d)
          rw [if_neg hval, if_pos hnum]
        have hn : isNumericVal (jsTrim (row.getD c "")) = true := hnum
        have hd : isDateVal (jsTrim (row.getD c "")) = false := by
          show (!(jsNumber (stripCommas (jsTrim (row.getD c "")))).isSome
            && (jsDateParse (jsTrim (row.getD c ""))).isSome) = false
          rw [hnum]
          rfl
        rw [hstep, ih (a + 1) (b + 1) d, List.length_cons, List.countP_cons, List.countP_cons,
          if_pos hn, if_neg (show ¬(isDateVal (jsTrim (row.getD c "")) = true) from by
            rw [hd]; exact Bool.false_ne_true)]
        simp only [Prod.mk.injEq]
        exact ⟨by omega, by omega, by omega⟩
      | false =>
        cases hdate : (jsDateParse (jsTrim (row.getD c ""))).isSome with
        | true =>
          have hstep : detectStep c (a, b, d) row = (a + 1, b, d + 1) := by
            show (if jsTrim (row.getD c "") = "" then (a, b, d)
                  else if (jsNumber (stripCommas (jsTrim (row.getD c "")))).isSome then (a + 1, b + 1, d)
                  else if (jsDateParse (jsTrim (row.getD c ""))).isSome then (a + 1, b, d + 1)
                  else (a + 1, b, d)) = (a + 1, b, d + 1)
            rw [if_neg hval, if_neg (show ¬((jsNumber (stripCommas (jsTrim (row.getD c "")))).isSome = true)
              from by rw [hnum]; exact Bool.false_ne_true), if_pos hdate]
          have hn : isNumericVal (jsTrim (row.getD c "")) = false := hnum
          have hd : isDateVal (jsTrim (row.getD c "")) = true := by
            show (!(jsNumber (stripCommas (jsTrim (row.getD c "")))).isSome
              && (jsDateParse (jsTrim (row.getD c ""))).isSome) = true
            rw [hnum, hdate]
            rfl
          rw [hstep, ih (a + 1) b (d + 1), List.length_cons, List.countP_cons, List.countP_cons,
            if_pos hd, if_neg (show ¬(isNumericVal (jsTrim (row.getD c "")) = true) from by
              rw [hn]; exact Bool.false_ne_true)]
          simp only [Prod.mk.injEq]
          exact ⟨by omega, by omega, by omega⟩
        | false =>
          have hstep : detectStep c (a, b, d) row = (a + 1, b, d) := by
            show (if jsTrim (row.getD c "") = "" then (a, b, d)
                  else if (jsNumber (stripCommas (jsTrim (row.getD c "")))).isSome then (a + 1, b + 1, d)
                  else if (jsDateParse (jsTrim (row.getD c ""))).isSome then (a + 1, b, d + 1)
                  else (a + 1, b, d)) = (a + 1, b, d)
            rw [if_neg hval, if_neg (show ¬((jsNumber (stripCommas (jsTrim (row.getD c "")))).isSome = true)
              from by rw [hnum]; exact Bool.false_ne_true),
              if_neg (show ¬((jsDateParse (jsTrim (row.getD c ""))).isSome = true)
              from by rw [hdate]; exact Bool.false_ne_true)]
          have hn : isNumericVal (jsTrim (row.getD c "")) = false := hnum
          have hd : isDateVal (jsTrim (row.getD c "")) = false := by
            show (!(jsNumber (stripCommas (jsTrim (row.getD c "")))).isSome
              && (jsDateParse (jsTrim (row.getD c ""))).isSome) = false
            rw [hnum, hdate]
            rfl
          rw [hstep, ih (a + 1) b d, List.length_cons, List.countP_cons, List.countP_cons,
            if_neg (show ¬(isNumericVal (jsTrim (row.getD c "")) = true) from by
              rw [hn]; exact Bool.false_ne_true),
            if_neg (show ¬(isDateVal (jsTrim (row.getD c "")) = true) from by
              rw [hd]; exact Bool.false_ne_true)]
          simp only [Prod.mk.injEq]
          exact ⟨by omega, by omega, by omega⟩

/-- The 80% threshold in exact rationals agrees with the integer
comparison used in the embedding of the source's binary64 comparison. -/
theorem ratio_ge_iff (numOk total : Nat) (h : 0 < total) :
    ((4 : ℚ) / 5 ≤ (numOk : ℚ) / (total : ℚ)) ↔ 4 * total ≤ 5 * numOk := by
  rw [div_le_div_iff (by norm_num) (by positivity)]
  have : ((4 : ℚ) * total ≤ numOk * 5) ↔ ((4 * total : Nat) : ℚ) ≤ ((5 * numOk : Nat) : ℚ) := by
    push_cast
    constructor <;> intro h' <;> linarith
  rw [this, Nat.cast_le]

/-- C5: each column's detected type over the first 500 rows — `string`
when there are no non-empty values, `number` when the numeric fraction is
at least 80%, else `date` when the date fraction (counting only
non-numeric values) is at least 80%, else `string`; both thresholds
inclusive. -/
theorem detectColTypes_spec (headers : List String) (data : List (List String)) (c : Nat)
    (hc : c < headers.length) :
    (detectColTypes headers data).getD c ColType.string =
      (if (colSampleVals data c).length = 0 then ColType.string
       else if (4 : ℚ) / 5 ≤ ((colSampleVals data c).countP isNumericVal : ℚ)
                / ((colSampleVals data c).length : ℚ) then ColType.number
       else if (4 : ℚ) / 5 ≤ ((colSampleVals data c).countP isDateVal : ℚ)
                / ((colSampleVals data c).length : ℚ) then ColType.date
       else ColType.string) := by
  unfold detectColTypes
  dsimp only
  rw [getD_map_range _ _ _ _ hc]
  rw [detect_foldl_counts c (data.take 500) 0 0 0]
  simp only [Nat.zero_add]
  rw [show ((data.take 500).map (fun row => jsTrim (row.getD c ""))).filter (fun v => v != "")
      = colSampleVals data c from rfl]
  simp only [ge_iff_le]
  rcases Nat.eq_zero_or_pos (colSampleVals data c).length with h0 | hpos
  · rw [if_pos h0, if_pos h0]
  · rw [if_neg (show ¬((colSampleVals data c).length = 0) from by omega),
      if_neg (show ¬((colSampleVals data c).length = 0) from by omega)]
    simp only [ratio_ge_iff _ _ hpos]

/-- C5 witness: a numeric column among the sample rows. -/
theorem detectColTypes_spec_witness :
    0 < 1 ∧ (detectColTypes ["n"] [["1"], ["2"], ["x"], ["3"], ["4"]]).getD 0 ColType.string =
      (if (colSampleVals [["1"], ["2"], ["x"], ["3"], ["4"]] 0).length = 0 then ColType.string
       else if (4 : ℚ) / 5
                ≤ ((colSampleVals [["1"], ["2"], ["x"], ["3"], ["4"]] 0).countP isNumericVal : ℚ)
                / ((colSampleVals [["1"], ["2"], ["x"], ["3"], ["4"]] 0).length : ℚ) then
         ColType.number
       else if (4 : ℚ) / 5
                ≤ ((colSampleVals [["1"], ["2"], ["x"], ["3"], ["4"]] 0).countP isDateVal : ℚ)
                / ((colSampleVals [["1"], ["2"], ["x"], ["3"], ["4"]] 0).length : ℚ) then
         ColType.date
       else ColType.string) :=
  ⟨by omega, detectColTypes_spec ["n"] [["1"], ["2"], ["x"], ["3"], ["4"]] 0 (by decide)⟩

/-! ### Claim C7 -/

/-- Flattening consecutive `k`-chunks of a list reproduces the list as
soon as the chunk count covers its length. -/
theorem flatten_chunks {α : Type} (k : Nat) (hk : 0 < k) (N : Nat) :
    ∀ l : List α, l.length ≤ N * k →
      ((List.range N).map (fun i => (l.drop (i * k)).take k)).flatten = l := by
  induction N with
  | zero =>
    intro l h
    simp only [Nat.zero_mul, Nat.le_zero] at h
    rw [List.eq_nil_of_length_eq_zero h]
    rfl
  | succ n ih =>
    intro l h
    rw [List.range_succ_eq_map, List.map_cons, List.map_map, List.flatten_cons]
    have hmap : (List.range n).map ((fun i => (l.drop (i * k)).take k) ∘ Nat.succ)
        = (List.range n).map (fun i => ((l.drop k).drop (i * k)).take k) := by
      refine List.map_congr_left fun i _ => ?_
      show (l.drop (Nat.succ i * k)).take k = ((l.drop k).drop (i * k)).take k
      rw [List.drop_drop]
      congr 2
      rw [Nat.succ_mul]
      exact Nat.add_comm _ _
    rw [hmap, ih (l.drop k) (by rw [Nat.succ_mul] at h; simp only [List.length_drop]; omega)]
    show (l.drop (0 * k)).take k ++ l.drop k = l
    rw [Nat.zero_mul, List.drop_zero, List.take_append_drop]

/-- C7: for every row list and positive page size, concatenating the page
slices for pages `1 .. calcTotalPages` reproduces the rows exactly — no
row missing, duplicated or reordered. -/
theorem pagination_coverage {α : Type} (rows : List α) (pageSize : Int) (hk : 0 < pageSize) :
    ((List.range' 1 (calcTotalPages rows.length pageSize).toNat).map
        (fun p : Nat => getPageSlice rows (p : Int) pageSize)).flatten = rows := by
  obtain ⟨m, rfl⟩ := Int.eq_ofNat_of_zero_le hk.le
  have hm : 0 < m := by exact_mod_cast hk
  rw [List.range'_eq_map_range, List.map_map]
  have hpt : ∀ i ∈ List.range (calcTotalPages rows.length (m : Int)).toNat,
      ((fun p : Nat => getPageSlice rows (p : Int) (m : Int)) ∘ (fun x => 1 + x)) i
        = (rows.drop (i * m)).take m := by
    intro i _
    show getPageSlice rows (((1 + i : Nat) : Int)) (m : Int) = (rows.drop (i * m)).take m
    rw [getPageSlice_pos rows _ _ hk (by exact_mod_cast Nat.le_add_right 1 i)]
    have h1 : (((1 + i : Nat) : Int) - 1) * (m : Int) = ((i * m : Nat) : Int) := by
      push_cast
      ring
    rw [h1, Int.toNat_natCast, Int.toNat_natCast]
  rw [List.map_congr_left hpt]
  apply flatten_chunks m hm
  -- rows.length ≤ N.toNat * m where N = calcTotalPages rows.length m
  have hne : ¬((m : Int) = 0) := by omega
  unfold calcTotalPages
  rw [if_neg hne]
  set C : Int := ⌈(rows.length : ℚ) / ((m : Int) : ℚ)⌉ with hC
  have hC0 : 0 ≤ C := Int.ceil_nonneg (by positivity)
  have hCle : (rows.length : Int) ≤ C * m := by
    have h2 : ((rows.length : ℚ) / ((m : Int) : ℚ)) ≤ (C : ℚ) := Int.le_ceil _
    have h3 : (rows.length : ℚ) ≤ (C : ℚ) * ((m : Int) : ℚ) := by
      rw [div_le_iff (by exact_mod_cast hm)] at h2
      exact h2
    exact_mod_cast h3
  rcases le_or_lt C 1 with h1 | h1
  · have hmax : max 1 C = 1 := max_eq_left h1
    rw [hmax]
    have h2 : (rows.length : Int) ≤ m := by
      calc (rows.length : Int) ≤ C * m := hCle
        _ ≤ 1 * m := mul_le_mul_of_nonneg_right h1 (by omega)
        _ = m := one_mul _
    simp only [Int.toNat_one, Nat.one_mul]
    omega
  · have : max 1 C = C := max_eq_right h1.le
    rw [this]
    have hCnat : C = ((C.toNat : Nat) : Int) := (Int.toNat_of_nonneg hC0).symm
    rw [hCnat] at hCle
    have : (rows.length : Int) ≤ ((C.toNat * m : Nat) : Int) := by
      push_cast
      push_cast at hCle
      linarith
    exact_mod_cast this

/-- C7 witness: five rows, page size 2, three pages. -/
theorem pagination_coverage_witness :
    (0 : Int) < 2 ∧
    ((List.range' 1 (calcTotalPages ([["a"], ["b"], ["c"], ["d"], ["e"]] : List (List String)).length 2).toNat).map
        (fun p : Nat => getPageSlice [["a"], ["b"], ["c"], ["d"], ["e"]] (p : Int) 2)).flatten
      = [["a"], ["b"], ["c"], ["d"], ["e"]] :=
  ⟨by decide, pagination_coverage [["a"], ["b"], ["c"], ["d"], ["e"]] 2 (by decide)⟩

/-! ### Claim C4 -/

/-- Cross-multiplication with a power of ten decides the rational
comparison of two decimal values, left exponent smaller. -/
theorem cross_mul_le (m1 m2 e1 e2 : Int) (h : e1 ≤ e2) :
    m1 ≤ m2 * 10 ^ (e2 - e1).toNat ↔ (m1 : ℚ) * (10 : ℚ) ^ e1 ≤ (m2 : ℚ) * (10 : ℚ) ^ e2 := by
  have hzero : ((10 : ℚ)) ≠ 0 := by norm_num
  have h10 : (0 : ℚ) < (10 : ℚ) ^ e1 := zpow_pos (by norm_num) _
  have hsplit : (10 : ℚ) ^ e2 = (10 : ℚ) ^ (e2 - e1) * (10 : ℚ) ^ e1 := by
    rw [← zpow_add₀ hzero]
    congr 1
    ring
  rw [hsplit, ← mul_assoc, mul_le_mul_right h10]
  obtain ⟨n, hn⟩ : ∃ n : Nat, e2 - e1 = (n : Int) :=
    ⟨(e2 - e1).toNat, (Int.toNat_of_nonneg (by omega)).symm⟩
  rw [hn, Int.toNat_natCast, zpow_natCast]
  rw [show ((10 : ℚ) ^ n) = ((10 ^ n : Int) : ℚ) from by push_cast; rfl]
  rw [← Int.cast_mul, Int.cast_le]

/-- Cross-multiplication with a power of ten, right exponent smaller. -/
theorem cross_mul_le' (m1 m2 e1 e2 : Int) (h : e2 ≤ e1) :
    m1 * 10 ^ (e1 - e2).toNat ≤ m2 ↔ (m1 : ℚ) * (10 : ℚ) ^ e1 ≤ (m2 : ℚ) * (10 : ℚ) ^ e2 := by
  have hzero : ((10 : ℚ)) ≠ 0 := by norm_num
  have h10 : (0 : ℚ) < (10 : ℚ) ^ e2 := zpow_pos (by norm_num) _
  have hsplit : (10 : ℚ) ^ e1 = (10 : ℚ) ^ (e1 - e2) * (10 : ℚ) ^ e2 := by
    rw [← zpow_add₀ hzero]
    congr 1
    ring
  rw [hsplit, ← mul_assoc, mul_le_mul_right h10]
  obtain ⟨n, hn⟩ : ∃ n : Nat, e1 - e2 = (n : Int) :=
    ⟨(e1 - e2).toNat, (Int.toNat_of_nonneg (by omega)).symm⟩
  rw [hn, Int.toNat_natCast, zpow_natCast]
  rw [show ((10 : ℚ) ^ n) = ((10 ^ n : Int) : ℚ) from by push_cast; rfl]
  rw [← Int.cast_mul, Int.cast_le]

/-- The boolean order on `JsNum` agrees with the order of the interpreted
extended rationals. -/
theorem JsNum.le_iff (x y : JsNum) : (JsNum.le x y = true) ↔ x.interp ≤ y.interp := by
  cases x with
  | negInf => exact iff_of_true rfl bot_le
  | fin m1 e1 =>
    cases y with
    | negInf =>
      exact iff_of_false (by simp [JsNum.le]) (WithBot.not_coe_le_bot _)
    | fin m2 e2 =>
      simp only [JsNum.le, JsNum.interp, WithBot.coe_le_coe, WithTop.coe_le_coe]
      split_ifs with he
      · simp only [decide_eq_true_eq]
        exact cross_mul_le m1 m2 e1 e2 he
      · simp only [decide_eq_true_eq]
        exact cross_mul_le' m1 m2 e1 e2 (by omega)
    | posInf =>
      exact iff_of_true rfl (WithBot.coe_le_coe.mpr le_top)
  | posInf =>
    cases y with
    | negInf =>
      exact iff_of_false (by simp [JsNum.le]) (WithBot.not_coe_le_bot _)
    | fin m2 e2 =>
      refine iff_of_false (by simp [JsNum.le]) fun hcontra => ?_
      rw [show JsNum.interp JsNum.posInf = ((⊤ : WithTop ℚ) : WithBot (WithTop ℚ)) from rfl,
        show JsNum.interp (JsNum.fin m2 e2)
          = ((((m2 : ℚ) * (10 : ℚ) ^ e2 : ℚ) : WithTop ℚ) : WithBot (WithTop ℚ)) from rfl,
        WithBot.coe_le_coe, top_le_iff] at hcontra
      exact WithTop.coe_ne_top hcontra
    | posInf => exact iff_of_true rfl le_rfl

/-- Only `-Infinity` interprets to `⊥`. -/
theorem JsNum.interp_eq_bot (x : JsNum) : x.interp = ⊥ ↔ x = JsNum.negInf := by
  cases x with
  | negInf => exact iff_of_true rfl rfl
  | fin m e =>
    exact iff_of_false (WithBot.coe_ne_bot) (fun h => JsNum.noConfusion h)
  | posInf =>
    exact iff_of_false (WithBot.coe_ne_bot) (fun h => JsNum.noConfusion h)

/-- The comparison key a row gets in `sortRows` for a numeric or date
column (the `string` branch is not key-based and is unused here). -/
def rowKey (t : ColType) (col : Nat) (row : List String) : JsNum :=
  match t with
  | ColType.number => numKey (jsTrim (row.getD col ""))
  | ColType.date => dateKey (jsTrim (row.getD col ""))
  | ColType.string => JsNum.negInf

/-- For an ascending sort on a numeric or date column, the comparator of
`sortRows` holds exactly when the row keys are ordered. -/
theorem sortLe_asc_key (t : ColType) (col : Nat) (a b : List String)
    (htnd : t = ColType.number ∨ t = ColType.date) :
    (sortLe t col "asc" a b = true) ↔ (rowKey t col a).interp ≤ (rowKey t col b).interp := by
  rcases htnd with rfl | rfl <;>
    simp only [sortLe, rowKey, if_pos (by rfl : ("asc" == "asc") = true)] <;>
    exact JsNum.le_iff _ _

/-- C4 counterexample: the claim states that in ascending order every
unparseable value in a number column is ordered before every parseable
value.  The string `"-Infinity"` is parseable (`parseFloat` returns
`-Infinity`, not `NaN`), yet it compares equal to an unparseable value
(`-Infinity - -Infinity` is `NaN`, which ES `SortCompare` maps to `+0`),
so the stable sort leaves the parseable `"-Infinity"` row in front of the
unparseable `"abc"` row. -/
theorem sortRows_unparseable_counterexample :
    sortRows [["-Infinity"], ["abc"]] 0 "asc" [ColType.number] = [["-Infinity"], ["abc"]] ∧
    numKey (jsTrim "abc") = JsNum.negInf ∧
    (jsParseFloat (stripCommas (jsTrim "-Infinity")).toList).isSome = true :=
  ⟨by decide, by decide, by decide⟩

/-- C4 (amended): for `sortRows` ascending on a column whose type is
`number` or `date`, every row whose comparison key is `-Infinity` — in
particular every row whose value fails to parse — is ordered before every
row whose key is not `-Infinity`, and any two rows with key `-Infinity`
(e.g. two unparseable values) compare as equal in both directions; the
sort is total and never fails.  (The original claim is weakened only in
that a *parseable* value whose key is itself `-Infinity`, such as
`"-Infinity"` in a number column, ties with unparseable values instead of
coming after them.) -/
theorem sortRows_unparseable_first (rows : List (List String)) (sortCol : Int)
    (colTypes : List ColType) (t : ColType)
    (hc : 0 ≤ sortCol)
    (ht : colTypes.getD sortCol.toNat ColType.string = t)
    (htnd : t = ColType.number ∨ t = ColType.date) :
    (∀ i j : Fin (sortRows rows sortCol "asc" colTypes).length,
        rowKey t sortCol.toNat ((sortRows rows sortCol "asc" colTypes).get i) = JsNum.negInf →
        rowKey t sortCol.toNat ((sortRows rows sortCol "asc" colTypes).get j) ≠ JsNum.negInf →
        (i : Nat) < (j : Nat)) ∧
    (∀ a b : List String, rowKey t sortCol.toNat a = JsNum.negInf →
        rowKey t sortCol.toNat b = JsNum.negInf →
        sortLe t sortCol.toNat "asc" a b = true ∧ sortLe t sortCol.toNat "asc" b a = true) := by
  have hout : sortRows rows sortCol "asc" colTypes
      = List.insertionSort (fun a b => sortLe t sortCol.toNat "asc" a b = true) rows := by
    unfold sortRows
    rw [if_neg (by simp; omega)]
    dsimp only
    rw [ht]
  constructor
  · have htot : IsTotal (List String) (fun a b => sortLe t sortCol.toNat "asc" a b = true) :=
      ⟨fun a b => by
        show sortLe t sortCol.toNat "asc" a b = true ∨ sortLe t sortCol.toNat "asc" b a = true
        rw [sortLe_asc_key t sortCol.toNat a b htnd, sortLe_asc_key t sortCol.toNat b a htnd]
        exact le_total _ _⟩
    have htrans : IsTrans (List String) (fun a b => sortLe t sortCol.toNat "asc" a b = true) :=
      ⟨fun a b c hab hbc => by
        show sortLe t sortCol.toNat "asc" a c = true
        rw [sortLe_asc_key t sortCol.toNat a c htnd]
        exact le_trans ((sortLe_asc_key t sortCol.toNat a b htnd).mp hab)
          ((sortLe_asc_key t sortCol.toNat b c htnd).mp hbc)⟩
    letI := htot
    letI := htrans
    have hsorted := List.sorted_insertionSort
      (fun a b => sortLe t sortCol.toNat "asc" a b = true) rows
    rw [hout]
    intro i j hbot hnbot
    rcases lt_trichotomy (i : Nat) (j : Nat) with hij | hij | hij
    · exact hij
    · exact absurd ((Fin.ext hij : i = j) ▸ hbot) hnbot
    · exfalso
      have hpair := List.pairwise_iff_get.mp hsorted j i hij
      replace hpair := (sortLe_asc_key t sortCol.toNat _ _ htnd).mp hpair
      rw [hbot, show JsNum.interp JsNum.negInf = ⊥ from rfl] at hpair
      exact hnbot ((JsNum.interp_eq_bot _).mp (le_bot_iff.mp hpair))
  · intro a b ha hb
    constructor <;>
      rw [sortLe_asc_key t sortCol.toNat _ _ htnd, ha, hb]

/-- C4 witness: a single-row table with a numeric column. -/
theorem sortRows_unparseable_first_witness :
    (0 : Int) ≤ 0 ∧ ([ColType.number].getD (0 : Int).toNat ColType.string = ColType.number) ∧
    ((∀ i j : Fin (sortRows [["1"]] 0 "asc" [ColType.number]).length,
        rowKey ColType.number (0 : Int).toNat ((sortRows [["1"]] 0 "asc" [ColType.number]).get i)
          = JsNum.negInf →
        rowKey ColType.number (0 : Int).toNat ((sortRows [["1"]] 0 "asc" [ColType.number]).get j)
          ≠ JsNum.negInf →
        (i : Nat) < (j : Nat)) ∧
      (∀ a b : List String, rowKey ColType.number (0 : Int).toNat a = JsNum.negInf →
        rowKey ColType.number (0 : Int).toNat b = JsNum.negInf →
        sortLe ColType.number (0 : Int).toNat "asc" a b = true ∧
          sortLe ColType.number (0 : Int).toNat "asc" b a = true)) :=
  ⟨le_refl 0, rfl,
    sortRows_unparseable_first [["1"]] 0 [ColType.number] ColType.number (le_refl 0) rfl
      (Or.inl rfl)⟩

/-! ### Claim C1 — auxiliary lemmas

The round-trip proof works at the character-list level.  A field is
`goodFieldL` when, if it is serialized unquoted, it is unchanged by
trimming. -/

/-- A field that `escapeCSVField` leaves unquoted must be trim-invariant
for the round trip, since `parseCSV` trims unquoted fields. -/
def goodFieldL (v : List Char) : Prop :=
  needsQuoteL v = false → jsTrimL v = v

/-- Characters of `dquote s` are quotes or characters of `s`. -/
theorem mem_dquote {x : Char} {s : List Char} (hx : x ∈ dquote s) : x = '"' ∨ x ∈ s := by
  induction s with
  | nil => cases hx
  | cons c t ih =>
    unfold dquote at hx
    by_cases hc : c = '"'
    · rw [if_pos hc] at hx
      rcases List.mem_cons.mp hx with rfl | hx
      · exact Or.inl rfl
      · rcases List.mem_cons.mp hx with rfl | hx
        · exact Or.inl rfl
        · rcases ih hx with h | h
          · exact Or.inl h
          · exact Or.inr (List.mem_cons_of_mem _ h)
    · rw [if_neg hc] at hx
      rcases List.mem_cons.mp hx with rfl | hx
      · exact Or.inr (List.mem_cons_self _ _)
      · rcases ih hx with h | h
        · exact Or.inl h
        · exact Or.inr (List.mem_cons_of_mem _ h)

/-- Characters of an escaped field are quotes or characters of the
field. -/
theorem mem_escapeCSVFieldL {x : Char} {s : List Char} (hx : x ∈ escapeCSVFieldL s) :
    x = '"' ∨ x ∈ s := by
  unfold escapeCSVFieldL at hx
  split_ifs at hx
  · rcases List.mem_cons.mp hx with rfl | hx
    · exact Or.inl rfl
    · rcases List.mem_append.mp hx with h | h
      · exact mem_dquote h
      · rcases List.mem_cons.mp h with rfl | h
        · exact Or.inl rfl
        · cases h
  · exact Or.inr hx

/-- Characters of a join are separator characters or characters of some
part. -/
theorem mem_joinWith {x : Char} {sep : List Char} :
    ∀ {parts : List (List Char)}, x ∈ joinWith sep parts → x ∈ sep ∨ ∃ p ∈ parts, x ∈ p := by
  intro parts
  induction parts with
  | nil => intro hx; cases hx
  | cons a rest ih =>
    intro hx
    cases rest with
    | nil =>
      exact Or.inr ⟨a, List.mem_cons_self _ _, hx⟩
    | cons b rest2 =>
      rw [show joinWith sep (a :: b :: rest2) = a ++ sep ++ joinWith sep (b :: rest2) from rfl]
        at hx
      rcases List.mem_append.mp hx with h | h
      · rcases List.mem_append.mp h with h2 | h2
        · exact Or.inr ⟨a, List.mem_cons_self _ _, h2⟩
        · exact Or.inl h2
      · rcases ih h with h2 | ⟨p, hp, hxp⟩
        · exact Or.inl h2
        · exact Or.inr ⟨p, List.mem_cons_of_mem _ hp, hxp⟩

/-- A non-quote, non-comma character absent from every header is absent
from the serialized header line. -/
theorem not_mem_headerLine {x : Char} {hs : List (List Char)}
    (hq : x ≠ '"') (hcomma : x ≠ ',')
    (hh : ∀ h ∈ hs, x ∉ h) :
    x ∉ joinWith [','] (hs.map escapeCSVFieldL) := by
  intro hx
  rcases mem_joinWith hx with h | ⟨p, hp, hxp⟩
  · rcases List.mem_cons.mp h with rfl | h
    · exact hcomma rfl
    · cases h
  · rcases List.mem_map.mp hp with ⟨h0, hh0, rfl⟩
    rcases mem_escapeCSVFieldL hxp with h | h
    · exact hq h
    · exact hh h0 hh0 h

/-- The first line of a text of the shape `line ++ CRLF ++ rest` (or just
`line`) is a sublist of `line ++ [CR]`. -/
theorem firstLine_sublist_line (hl tail : List Char)
    (htail : tail = [] ∨ ∃ t, tail = '\r' :: '\n' :: t) :
    (firstLine (hl ++ tail)).Sublist (hl ++ ['\r']) := by
  rcases htail with rfl | ⟨t, rfl⟩
  · rw [List.append_nil]
    have h1 : (firstLine hl).Sublist hl := by
      unfold firstLine
      dsimp only
      split_ifs
      · exact List.takeWhile_sublist _
      · exact (List.dropLast_sublist _).trans (List.takeWhile_sublist _)
      · exact List.takeWhile_sublist _
    exact h1.trans (List.sublist_append_left _ _)
  · unfold firstLine
    dsimp only
    by_cases hall : ∀ c ∈ hl, c ≠ '\n'
    · have htkhl : hl.takeWhile (fun c => c ≠ '\n') = hl := by
        rw [List.takeWhile_eq_self_iff]
        intro c hc
        simpa using hall c hc
      have htake : (hl ++ '\r' :: '\n' :: t).takeWhile (fun c => c ≠ '\n') = hl ++ ['\r'] := by
        rw [List.takeWhile_append, if_pos (by rw [htkhl])]
        congr 1
      rw [htake]
      have hlen : (hl ++ ['\r']).length ≠ (hl ++ '\r' :: '\n' :: t).length := by
        simp only [List.length_append, List.length_cons, List.length_nil]
        omega
      rw [if_neg hlen, if_pos (List.getLast?_concat _), List.dropLast_concat]
      exact List.sublist_append_left _ _
    · have hne : (hl.takeWhile (fun c => c ≠ '\n')).length ≠ hl.length := by
        intro hlen2
        apply hall
        intro c hc
        have heq : hl.takeWhile (fun c => c ≠ '\n') = hl :=
          (List.takeWhile_sublist _).eq_of_length hlen2
        simpa using List.mem_takeWhile_imp (heq.symm ▸ hc :
          c ∈ hl.takeWhile (fun c => c ≠ '\n'))
      have htake : (hl ++ '\r' :: '\n' :: t).takeWhile (fun c => c ≠ '\n')
          = hl.takeWhile (fun c => c ≠ '\n') := by
        rw [List.takeWhile_append, if_neg hne]
      rw [htake]
      have hsub : (hl.takeWhile (fun c => c ≠ '\n')).Sublist (hl ++ ['\r']) :=
        (List.takeWhile_sublist _).trans (List.sublist_append_left _ _)
      split_ifs
      · exact hsub
      · exact (List.dropLast_sublist _).trans hsub
      · exact hsub

/-- Delimiter detection on a serialized text whose header line is free of
the alternative delimiter candidates yields comma. -/
theorem detectDelim_serialized (hl tail : List Char)
    (htail : tail = [] ∨ ∃ t, tail = '\r' :: '\n' :: t)
    (h2 : ';' ∉ hl) (h3 : '\t' ∉ hl) (h4 : '|' ∉ hl) :
    detectDelim (hl ++ tail) = ',' := by
  rw [detectDelim_eq]
  have hsub := firstLine_sublist_line hl tail htail
  have hz : ∀ x : Char, x ∉ hl → x ≠ '\r' → (firstLine (hl ++ tail)).count x = 0 := by
    intro x hxhl hxr
    have h0 : (hl ++ ['\r']).count x = 0 := by
      rw [List.count_append, List.count_eq_zero.mpr hxhl,
        List.count_eq_zero.mpr (by simp [hxr])]
    have hle := hsub.count_le x
    omega
  rw [hz ';' h2 (by decide), hz '\t' h3 (by decide), hz '|' h4 (by decide)]
  unfold firstMaxDelim
  rw [if_pos (by omega)]

/-- Parsing the quoted-body serialization of a field recovers the field,
provided the remaining input does not begin with a quote. -/
theorem parseQuotedBody_dquote (s : List Char) : ∀ rest : List Char,
    rest.head? ≠ some '"' →
    parseQuotedBody (dquote s ++ '"' :: rest) = (s, rest) := by
  induction s with
  | nil =>
    intro rest hrest
    show parseQuotedBody ('"' :: rest) = ([], rest)
    cases rest with
    | nil => rfl
    | cons c2 t2 =>
      have hc2 : c2 ≠ '"' := fun h => hrest (by rw [h]; rfl)
      simp only [parseQuotedBody]
      rw [if_pos trivial, if_neg hc2]
  | cons c s' ih =>
    intro rest hrest
    by_cases hc : c = '"'
    · subst hc
      show parseQuotedBody ('"' :: '"' :: (dquote s' ++ '"' :: rest)) = ('"' :: s', rest)
      simp only [parseQuotedBody]
      rw [if_pos trivial, if_pos trivial, ih rest hrest]
    · rw [show dquote (c :: s') = c :: dquote s' from by rw [dquote, if_neg hc],
        List.cons_append]
      rw [parseQuotedBody.eq_def]
      dsimp only
      rw [if_neg hc, ih rest hrest]

/-- `takeWhile`/`dropWhile` on a satisfying block followed by a
non-satisfying remainder. -/
theorem span_append {p : Char → Bool} (s rest : List Char)
    (hs : ∀ c ∈ s, p c = true) (hrest : ∀ r, rest.head? = some r → p r = false) :
    (s ++ rest).takeWhile p = s ∧ (s ++ rest).dropWhile p = rest := by
  constructor
  · rw [List.takeWhile_append, if_pos (by rw [List.takeWhile_eq_self_iff.mpr hs])]
    cases rest with
    | nil => simp
    | cons r t =>
      rw [List.takeWhile_cons,
        if_neg (by rw [hrest r rfl]; exact Bool.false_ne_true), List.append_nil]
  · rw [List.dropWhile_append,
      if_pos (List.isEmpty_iff.mpr (List.dropWhile_eq_nil_iff.mpr hs))]
    cases rest with
    | nil => simp
    | cons r t =>
      rw [List.dropWhile_cons, if_neg (by rw [hrest r rfl]; exact Bool.false_ne_true)]

/-- Escaping when quoting is needed. -/
theorem escL_pos {v : List Char} (h : needsQuoteL v = true) :
    escapeCSVFieldL v = '"' :: (dquote v ++ ['"']) := by
  unfold escapeCSVFieldL
  rw [if_pos h]

/-- Escaping when no quoting is needed. -/
theorem escL_neg {v : List Char} (h : needsQuoteL v = false) :
    escapeCSVFieldL v = v := by
  unfold escapeCSVFieldL
  rw [if_neg (by rw [h]; exact Bool.false_ne_true)]

/-- An unquoted-serializable field contains none of the special
characters. -/
theorem not_mem_of_needsQuote_false {v : List Char} (h : needsQuoteL v = false) (c : Char)
    (hc : c ∈ v) : c ≠ ',' ∧ c ≠ '"' ∧ c ≠ '\n' ∧ c ≠ '\r' := by
  unfold needsQuoteL at h
  rw [List.any_eq_false] at h
  obtain ⟨⟨⟨a1, a2⟩, a3⟩, a4⟩ : ((¬c = ',' ∧ ¬c = '"') ∧ ¬c = '\n') ∧ ¬c = '\r' := by
    simpa using h c hc
  exact ⟨a1, a2, a3, a4⟩

/-- Every character of an unquoted-serializable field passes the unquoted
field scan of `parseFields`. -/
theorem scan_all_of_needsQuote_false {v : List Char} (h : needsQuoteL v = false) :
    ∀ c ∈ v, (!(c == ',' || c == '\r' || c == '\n')) = true := by
  intro c hc
  obtain ⟨h1, _, h3, h4⟩ := not_mem_of_needsQuote_false h c hc
  simp [h1, h3, h4]

/-- Quoted field at end of input. -/
theorem parseFields_q_nil (k : Nat) (f : List Char) :
    parseFields ',' (k + 1) ('"' :: (dquote f ++ ['"'])) = ([f], []) := by
  rw [parseFields.eq_def]
  dsimp only
  rw [if_pos rfl,
    show (dquote f ++ ['"'] : List Char) = dquote f ++ '"' :: [] from rfl,
    parseQuotedBody_dquote f [] (by simp)]

/-- Quoted field followed by a comma. -/
theorem parseFields_q_comma (k : Nat) (f rt : List Char) :
    parseFields ',' (k + 1) ('"' :: (dquote f ++ '"' :: ',' :: rt))
      = (f :: (parseFields ',' k rt).1, (parseFields ',' k rt).2) := by
  rw [parseFields.eq_def]
  dsimp only
  rw [if_pos rfl, parseQuotedBody_dquote f (',' :: rt) (by simp)]
  dsimp only
  rw [if_pos rfl]

/-- Quoted field followed by CRLF. -/
theorem parseFields_q_crlf (k : Nat) (f t : List Char) :
    parseFields ',' (k + 1) ('"' :: (dquote f ++ '"' :: '\r' :: '\n' :: t)) = ([f], t) := by
  rw [parseFields.eq_def]
  dsimp only
  rw [if_pos rfl, parseQuotedBody_dquote f ('\r' :: '\n' :: t) (by simp)]
  dsimp only
  rw [if_neg (by decide), if_pos rfl,
    if_pos (show ('\n' :: t : List Char).head? = some '\n' from rfl)]
  rfl

/-- Unquoted field at end of input. -/
theorem parseFields_u_nil (k : Nat) (f : List Char) (hf : needsQuoteL f = false)
    (hne : f ≠ []) :
    parseFields ',' (k + 1) f = ([jsTrimL f], []) := by
  obtain ⟨c0, f0, rfl⟩ : ∃ c0 f0, f = c0 :: f0 := by
    cases f with
    | nil => exact absurd rfl hne
    | cons a b => exact ⟨a, b, rfl⟩
  have hc0 : c0 ≠ '"' := (not_mem_of_needsQuote_false hf c0 (List.mem_cons_self _ _)).2.1
  rw [parseFields.eq_def]
  dsimp only
  rw [if_neg hc0,
    List.takeWhile_eq_self_iff.mpr (scan_all_of_needsQuote_false hf),
    List.dropWhile_eq_nil_iff.mpr (scan_all_of_needsQuote_false hf)]

/-- Unquoted field followed by a comma. -/
theorem parseFields_u_comma (k : Nat) (f rt : List Char) (hf : needsQuoteL f = false) :
    parseFields ',' (k + 1) (f ++ ',' :: rt)
      = (jsTrimL f :: (parseFields ',' k rt).1, (parseFields ',' k rt).2) := by
  have hspan := span_append (p := fun x => !(x == ',' || x == '\r' || x == '\n')) f (',' :: rt)
    (scan_all_of_needsQuote_false hf)
    (fun r hr => by injection hr with h2; subst h2; rfl)
  cases f with
  | nil => rfl
  | cons c0 f0 =>
    have hc0 : c0 ≠ '"' := (not_mem_of_needsQuote_false hf c0 (List.mem_cons_self _ _)).2.1
    rw [show ((c0 :: f0) ++ ',' :: rt : List Char) = c0 :: (f0 ++ ',' :: rt) from rfl]
    rw [parseFields.eq_def]
    dsimp only
    rw [if_neg hc0,
      show List.takeWhile (fun x => !(x == ',' || x == '\r' || x == '\n')) (c0 :: (f0 ++ ',' :: rt))
        = c0 :: f0 from hspan.1,
      show List.dropWhile (fun x => !(x == ',' || x == '\r' || x == '\n')) (c0 :: (f0 ++ ',' :: rt))
        = ',' :: rt from hspan.2]
    dsimp only
    rw [if_pos rfl]

/-- Unquoted field followed by CRLF. -/
theorem parseFields_u_crlf (k : Nat) (f t : List Char) (hf : needsQuoteL f = false) :
    parseFields ',' (k + 1) (f ++ '\r' :: '\n' :: t) = ([jsTrimL f], t) := by
  have hspan := span_append (p := fun x => !(x == ',' || x == '\r' || x == '\n')) f ('\r' :: '\n' :: t)
    (scan_all_of_needsQuote_false hf)
    (fun r hr => by injection hr with h2; subst h2; rfl)
  cases f with
  | nil => rfl
  | cons c0 f0 =>
    have hc0 : c0 ≠ '"' := (not_mem_of_needsQuote_false hf c0 (List.mem_cons_self _ _)).2.1
    rw [show ((c0 :: f0) ++ '\r' :: '\n' :: t : List Char) = c0 :: (f0 ++ '\r' :: '\n' :: t) from rfl]
    rw [parseFields.eq_def]
    dsimp only
    rw [if_neg hc0,
      show List.takeWhile (fun x => !(x == ',' || x == '\r' || x == '\n'))
          (c0 :: (f0 ++ '\r' :: '\n' :: t)) = c0 :: f0 from hspan.1,
      show List.dropWhile (fun x => !(x == ',' || x == '\r' || x == '\n'))
          (c0 :: (f0 ++ '\r' :: '\n' :: t)) = '\r' :: '\n' :: t from hspan.2]
    dsimp only
    rw [if_neg (by decide), if_pos rfl,
      if_pos (show ('\n' :: t : List Char).head? = some '\n' from rfl)]
    rfl

/-- A serialized record (plus its tail) is never the empty input, given
the final-field condition. -/
theorem serNonempty (fs : List (List Char)) (tail : List Char)
    (hfs : fs ≠ []) (hlast : tail = [] → fs.getLast? ≠ some []) :
    joinWith [','] (fs.map escapeCSVFieldL) ++ tail ≠ [] := by
  intro hcontra
  rcases List.append_eq_nil.mp hcontra with ⟨hjoin, htail⟩
  cases fs with
  | nil => exact hfs rfl
  | cons f fs' =>
    cases fs' with
    | nil =>
      have hf_ne : f ≠ [] := by
        intro h0
        exact hlast htail (by rw [h0]; rfl)
      rw [show joinWith [','] ([f].map escapeCSVFieldL) = escapeCSVFieldL f from rfl] at hjoin
      by_cases hq : needsQuoteL f
      · rw [escL_pos hq] at hjoin
        cases hjoin
      · rw [escL_neg (by simpa using hq)] at hjoin
        exact hf_ne hjoin
    | cons g fs'' =>
      rw [show joinWith [','] ((f :: g :: fs'').map escapeCSVFieldL)
          = escapeCSVFieldL f ++ [','] ++ joinWith [','] ((g :: fs'').map escapeCSVFieldL)
          from rfl] at hjoin
      rcases List.append_eq_nil.mp hjoin with ⟨h1, _⟩
      rcases List.append_eq_nil.mp h1 with ⟨_, h2⟩
      cases h2

/-- Parsing one serialized record recovers the field list and leaves the
input after the CRLF (or the empty input at end of text). -/
theorem parseFields_ser (fs : List (List Char)) (tail : List Char)
    (htail : tail = [] ∨ ∃ t, tail = '\r' :: '\n' :: t) :
    ∀ fuel : Nat,
    fs ≠ [] →
    (∀ v ∈ fs, goodFieldL v) →
    (tail = [] → fs.getLast? ≠ some []) →
    (joinWith [','] (fs.map escapeCSVFieldL) ++ tail).length ≤ fuel →
    parseFields ',' fuel (joinWith [','] (fs.map escapeCSVFieldL) ++ tail)
      = (fs, tail.drop 2) := by
  induction fs with
  | nil => intro fuel h; exact absurd rfl h
  | cons f fs' ih =>
    intro fuel hne hgood hlast hfuel
    obtain ⟨k, rfl⟩ : ∃ k, fuel = k + 1 := by
      have hcs := serNonempty (f :: fs') tail (by simp) hlast
      have hpos : 0 < (joinWith [','] ((f :: fs').map escapeCSVFieldL) ++ tail).length :=
        List.length_pos.mpr hcs
      exact ⟨fuel - 1, by omega⟩
    cases fs' with
    | nil =>
      rw [show joinWith [','] ([f].map escapeCSVFieldL) = escapeCSVFieldL f from rfl]
      rcases htail with rfl | ⟨t, rfl⟩
      · have hf_ne : f ≠ [] := by
          intro h0
          exact hlast rfl (by rw [h0]; rfl)
        rw [List.append_nil]
        by_cases hq : needsQuoteL f
        · rw [escL_pos hq]
          exact parseFields_q_nil k f
        · rw [escL_neg (by simpa using hq),
            parseFields_u_nil k f (by simpa using hq) hf_ne,
            hgood f (List.mem_cons_self _ _) (by simpa using hq)]
          rfl
      · by_cases hq : needsQuoteL f
        · rw [escL_pos hq,
            show (('"' :: (dquote f ++ ['"'])) ++ '\r' :: '\n' :: t : List Char)
              = '"' :: (dquote f ++ '"' :: '\r' :: '\n' :: t) from by simp,
            parseFields_q_crlf k f t]
          rfl
        · rw [escL_neg (by simpa using hq), parseFields_u_crlf k f t (by simpa using hq),
            hgood f (List.mem_cons_self _ _) (by simpa using hq)]
          rfl
    | cons g fs'' =>
      have hsplit : joinWith [','] ((f :: g :: fs'').map escapeCSVFieldL) ++ tail
          = escapeCSVFieldL f
            ++ ',' :: (joinWith [','] ((g :: fs'').map escapeCSVFieldL) ++ tail) := by
        rw [show joinWith [','] ((f :: g :: fs'').map escapeCSVFieldL)
            = escapeCSVFieldL f ++ [','] ++ joinWith [','] ((g :: fs'').map escapeCSVFieldL)
            from rfl]
        simp
      rw [hsplit]
      have hlen : (joinWith [','] ((g :: fs'').map escapeCSVFieldL) ++ tail).length ≤ k := by
        rw [hsplit] at hfuel
        simp only [List.length_append, List.length_cons] at hfuel ⊢
        omega
      have hih := ih k (by simp) (fun v hv => hgood v (List.mem_cons_of_mem _ hv))
        (fun h0 => by have h1 := hlast h0; rwa [List.getLast?_cons_cons] at h1) hlen
      by_cases hq : needsQuoteL f
      · rw [escL_pos hq,
          show (('"' :: (dquote f ++ ['"']))
                ++ ',' :: (joinWith [','] ((g :: fs'').map escapeCSVFieldL) ++ tail) : List Char)
            = '"' :: (dquote f
                ++ '"' :: ',' :: (joinWith [','] ((g :: fs'').map escapeCSVFieldL) ++ tail))
            from by simp,
          parseFields_q_comma k f _, hih]
      · rw [escL_neg (by simpa using hq), parseFields_u_comma k f _ (by simpa using hq), hih,
          hgood f (List.mem_cons_self _ _) (by simpa using hq)]

/-- `parseRows` on empty input, any fuel. -/
theorem parseRows_nil_fuel (d : Char) : ∀ fuel, parseRows d fuel [] = [] := by
  intro fuel
  cases fuel <;> rfl

/-- Parsing the serialized records recovers them all. -/
theorem parseRows_ser (rowsL : List (List (List Char))) :
    ∀ fuel : Nat,
    rowsL ≠ [] →
    (∀ r ∈ rowsL, r ≠ [] ∧ r ≠ [[]] ∧ ∀ v ∈ r, goodFieldL v) →
    (∀ rl, rowsL.getLast? = some rl → rl.getLast? ≠ some []) →
    (joinWith ['\r', '\n']
      (rowsL.map (fun r => joinWith [','] (r.map escapeCSVFieldL)))).length ≤ fuel →
    parseRows ',' fuel
      (joinWith ['\r', '\n'] (rowsL.map (fun r => joinWith [','] (r.map escapeCSVFieldL))))
      = rowsL := by
  induction rowsL with
  | nil => intro fuel h; exact absurd rfl h
  | cons r rest ih =>
    intro fuel hne hgood hlast hfuel
    obtain ⟨hr_ne, hr_ne1, hr_good⟩ := hgood r (List.mem_cons_self _ _)
    cases rest with
    | nil =>
      rw [show joinWith ['\r', '\n']
            (([r] : List (List (List Char))).map (fun r => joinWith [','] (r.map escapeCSVFieldL)))
          = joinWith [','] (r.map escapeCSVFieldL) from rfl] at hfuel ⊢
      have hlastr : r.getLast? ≠ some [] := hlast r rfl
      have hne2 : joinWith [','] (r.map escapeCSVFieldL) ≠ [] := by
        have h3 := serNonempty r [] hr_ne (fun _ => hlastr)
        simpa using h3
      obtain ⟨c, t, hct⟩ : ∃ c t, joinWith [','] (r.map escapeCSVFieldL) = c :: t := by
        cases h : joinWith [','] (r.map escapeCSVFieldL) with
        | nil => exact absurd h hne2
        | cons a b => exact ⟨a, b, rfl⟩
      obtain ⟨k, rfl⟩ : ∃ k, fuel = k + 1 := by
        rw [hct] at hfuel
        exact ⟨fuel - 1, by simp at hfuel; omega⟩
      have hp := parseFields_ser r [] (Or.inl rfl)
        ((joinWith [','] (r.map escapeCSVFieldL)).length) hr_ne hr_good (fun _ => hlastr)
        (by simp)
      rw [List.append_nil] at hp
      rw [hct, parseRows.eq_def]
      dsimp only
      rw [← hct, hp]
      dsimp only
      rw [if_neg (not_or.mpr ⟨hr_ne, hr_ne1⟩),
        show (List.drop 2 ([] : List Char)) = [] from rfl, parseRows_nil_fuel]
    | cons r2 rest2 =>
      have hsplit : joinWith ['\r', '\n']
            ((r :: r2 :: rest2).map (fun r => joinWith [','] (r.map escapeCSVFieldL)))
          = joinWith [','] (r.map escapeCSVFieldL)
            ++ ('\r' :: '\n' :: joinWith ['\r', '\n']
              ((r2 :: rest2).map (fun r => joinWith [','] (r.map escapeCSVFieldL)))) := by
        rw [show joinWith ['\r', '\n']
              ((r :: r2 :: rest2).map (fun r => joinWith [','] (r.map escapeCSVFieldL)))
            = joinWith [','] (r.map escapeCSVFieldL) ++ ['\r', '\n']
              ++ joinWith ['\r', '\n']
                ((r2 :: rest2).map (fun r => joinWith [','] (r.map escapeCSVFieldL)))
            from rfl]
        simp
      rw [hsplit] at hfuel ⊢
      obtain ⟨c, t, hct⟩ : ∃ c t, joinWith [','] (r.map escapeCSVFieldL)
          ++ ('\r' :: '\n' :: joinWith ['\r', '\n']
            ((r2 :: rest2).map (fun r => joinWith [','] (r.map escapeCSVFieldL)))) = c :: t := by
        cases h : joinWith [','] (r.map escapeCSVFieldL)
            ++ ('\r' :: '\n' :: joinWith ['\r', '\n']
              ((r2 :: rest2).map (fun r => joinWith [','] (r.map escapeCSVFieldL)))) with
        | nil => exact absurd h (by simp)
        | cons a b => exact ⟨a, b, rfl⟩
      obtain ⟨k, rfl⟩ : ∃ k, fuel = k + 1 := by
        rw [hct] at hfuel
        exact ⟨fuel - 1, by simp at hfuel; omega⟩
      have hp := parseFields_ser r
        ('\r' :: '\n' :: joinWith ['\r', '\n']
          ((r2 :: rest2).map (fun r => joinWith [','] (r.map escapeCSVFieldL))))
        (Or.inr ⟨_, rfl⟩)
        ((joinWith [','] (r.map escapeCSVFieldL)
          ++ ('\r' :: '\n' :: joinWith ['\r', '\n']
            ((r2 :: rest2).map (fun r => joinWith [','] (r.map escapeCSVFieldL))))).length)
        hr_ne hr_good (fun h0 => by cases h0) (le_refl _)
      rw [hct, parseRows.eq_def]
      dsimp only
      rw [← hct, hp]
      dsimp only
      rw [if_neg (not_or.mpr ⟨hr_ne, hr_ne1⟩)]
      have hlen2 : (joinWith ['\r', '\n']
          ((r2 :: rest2).map (fun r => joinWith [','] (r.map escapeCSVFieldL)))).length ≤ k := by
        rw [hct] at hfuel
        rw [← hct] at hfuel
        simp only [List.length_append, List.length_cons] at hfuel
        omega
      rw [show (List.drop 2 ('\r' :: '\n' :: joinWith ['\r', '\n']
            ((r2 :: rest2).map (fun r => joinWith [','] (r.map escapeCSVFieldL)))))
          = joinWith ['\r', '\n']
            ((r2 :: rest2).map (fun r => joinWith [','] (r.map escapeCSVFieldL))) from rfl]
      rw [ih k (by simp)
        (fun r3 hr3 => hgood r3 (List.mem_cons_of_mem _ hr3))
        (fun rl hrl => hlast rl (by rwa [List.getLast?_cons_cons])) hlen2]

/-- A nonempty string has a nonempty character list. -/
theorem toList_ne_nil_of_ne (s : String) (h : s ≠ "") : s.toList ≠ [] := by
  intro hl
  exact h (String.ext hl)

/-- Converting to character lists and back is the identity on string lists. -/
theorem map_asString_toList (l : List String) : (l.map String.toList).map List.asString = l := by
  rw [List.map_map, show (List.asString ∘ String.toList) = id from funext (fun s => rfl),
    List.map_id]

/-- Converting to character lists and back is the identity on row lists. -/
theorem map_map_asString (rs : List (List String)) :
    (rs.map (fun r => r.map String.toList)).map (fun r => r.map List.asString) = rs := by
  induction rs with
  | nil => rfl
  | cons r t ih => rw [List.map_cons, List.map_cons, map_asString_toList, ih]

/-- The last element of a list is a member. -/
theorem mem_of_getLastQ {α : Type} {l : List α} {a : α} : l.getLast? = some a → a ∈ l := by
  induction l with
  | nil => intro h; cases h
  | cons x t ih =>
    intro h
    cases t with
    | nil =>
      have h9 : some x = some a := h
      injection h9 with h10
      subst h10
      exact List.mem_cons_self _ _
    | cons y u =>
      rw [List.getLast?_cons_cons] at h
      exact List.mem_cons_of_mem _ (ih h)

/-- Indexing a list by its own range recovers a plain map. -/
theorem map_range_getD (f : List Char → List Char) :
    ∀ r : List (List Char),
    (List.range r.length).map (fun c => f (r.getD c [])) = r.map f := by
  intro r
  induction r with
  | nil => rfl
  | cons a t ih =>
    rw [List.length_cons, List.range_succ_eq_map, List.map_cons, List.map_map]
    rw [show ((fun c => f (List.getD (a :: t) c [])) ∘ fun n => n + 1)
        = (fun c => f (List.getD t c [])) from rfl]
    rw [ih]
    rfl

/-- On a row of exactly the header width, the exported line is the plain
escaped join of the row's fields. -/
theorem serRowL_eq (ncols : Nat) (r : List (List Char)) (hlen : r.length = ncols) :
    serRowL ncols r = joinWith [','] (r.map escapeCSVFieldL) := by
  subst hlen
  show joinWith [','] ((List.range r.length).map (fun c => escapeCSVFieldL (r.getD c [])))
    = joinWith [','] (r.map escapeCSVFieldL)
  rw [map_range_getD]

/-- Header synthesis is the identity on nonempty header strings. -/
theorem synthHeaders_id (hs : List String) :
    (∀ x ∈ hs, x ≠ "") → ∀ i, synthHeaders i hs = hs := by
  induction hs with
  | nil => intro _ i; rfl
  | cons a t ih =>
    intro h i
    simp only [synthHeaders]
    rw [if_neg (h a (List.mem_cons_self _ _)),
      ih (fun x hx => h x (List.mem_cons_of_mem _ hx)) (i + 1)]

instance decGoodFieldL (v : List Char) : Decidable (goodFieldL v) :=
  inferInstanceAs (Decidable (needsQuoteL v = false → jsTrimL v = v))

/-- C1 (amended): the export/parse round trip `buildData (parseCSV
(serializeCSV headers rows)).rows = ⟨headers, rows⟩` holds provided the
headers list is nonempty; every header is a nonempty string free of the
alternative delimiter characters ';', tab and '|'; every header and every
field that `escapeCSVField` leaves unquoted is invariant under JS
`String.prototype.trim`; every row has exactly one field per header; when
there is a single column no field is empty; and the last field of the last
row is nonempty.  The unqualified claim is false: `parseCSV` trims
unquoted fields, so values with leading or trailing spaces (which contain
no control characters) do not round-trip; the extra hypotheses also rule
out delimiter re-detection on ';'/tab/'|' in the header line, width
normalisation of ragged rows, the dropping of single-empty-field records,
and the dropping of a trailing empty last field at end of input. -/
theorem csv_round_trip (headers : List String) (rows : List (List String))
    (h1 : headers ≠ [])
    (h2 : ∀ h ∈ headers, h ≠ "")
    (h3 : ∀ h ∈ headers, ∀ c ∈ h.toList, c ≠ ';' ∧ c ≠ '\t' ∧ c ≠ '|')
    (h4 : ∀ h ∈ headers, goodFieldL h.toList)
    (h5 : ∀ r ∈ rows, r.length = headers.length)
    (h6 : ∀ r ∈ rows, ∀ v ∈ r, goodFieldL v.toList)
    (h7 : headers.length = 1 → ∀ r ∈ rows, ∀ v ∈ r, v ≠ "")
    (h8 : ∀ rl, rows.getLast? = some rl → ∀ vl, rl.getLast? = some vl → vl ≠ "") :
    buildData (parseCSV (serializeCSV headers rows)).rows = ⟨headers, rows⟩ := by
  have hbody0 : (serializeCSV headers rows).toList
      = '\uFEFF' :: joinWith ['\r', '\n']
        (joinWith [','] ((headers.map String.toList).map escapeCSVFieldL)
          :: (rows.map (fun r => r.map String.toList)).map
            (serRowL (headers.map String.toList).length)) := rfl
  have hmapr : (rows.map (fun r => r.map String.toList)).map
      (serRowL (headers.map String.toList).length)
      = (rows.map (fun r => r.map String.toList)).map
        (fun r => joinWith [','] (r.map escapeCSVFieldL)) := by
    apply List.map_congr_left
    intro rL hrL
    rcases List.mem_map.mp hrL with ⟨r, hr, rfl⟩
    apply serRowL_eq
    rw [List.length_map, List.length_map, h5 r hr]
  have hbody : (serializeCSV headers rows).toList
      = '\uFEFF' :: joinWith ['\r', '\n']
        ((headers.map String.toList :: rows.map (fun r => r.map String.toList)).map
          (fun r => joinWith [','] (r.map escapeCSVFieldL))) := by
    rw [hbody0, hmapr]
    rfl
  have hstrip : stripBOM (serializeCSV headers rows).toList
      = joinWith ['\r', '\n']
        ((headers.map String.toList :: rows.map (fun r => r.map String.toList)).map
          (fun r => joinWith [','] (r.map escapeCSVFieldL))) := by
    rw [hbody]
    rfl
  have hmemH : ∀ x : Char, x ≠ '"' → x ≠ ',' → (∀ h ∈ headers, x ∉ h.toList) →
      x ∉ joinWith [','] ((headers.map String.toList).map escapeCSVFieldL) := by
    intro x hq hc hh
    apply not_mem_headerLine hq hc
    intro hl hhl
    rcases List.mem_map.mp hhl with ⟨h0, hh0, rfl⟩
    exact hh h0 hh0
  have hsemi := hmemH ';' (by decide) (by decide)
    (fun h0 hh0 hmem => (h3 h0 hh0 ';' hmem).1 rfl)
  have htab := hmemH '\t' (by decide) (by decide)
    (fun h0 hh0 hmem => (h3 h0 hh0 '\t' hmem).2.1 rfl)
  have hpipe := hmemH '|' (by decide) (by decide)
    (fun h0 hh0 hmem => (h3 h0 hh0 '|' hmem).2.2 rfl)
  have hdelim : detectDelim (stripBOM (serializeCSV headers rows).toList) = ',' := by
    rw [hstrip]
    cases rows with
    | nil =>
      rw [show joinWith ['\r', '\n']
            ((headers.map String.toList
              :: List.map (fun r => r.map String.toList) ([] : List (List String))).map
              (fun r => joinWith [','] (r.map escapeCSVFieldL)))
          = joinWith [','] ((headers.map String.toList).map escapeCSVFieldL) from rfl]
      rw [← List.append_nil (joinWith [','] ((headers.map String.toList).map escapeCSVFieldL))]
      exact detectDelim_serialized _ [] (Or.inl rfl) hsemi htab hpipe
    | cons r2 rest2 =>
      have hsp : joinWith ['\r', '\n']
            ((headers.map String.toList
              :: List.map (fun r => r.map String.toList) (r2 :: rest2)).map
              (fun r => joinWith [','] (r.map escapeCSVFieldL)))
          = joinWith [','] ((headers.map String.toList).map escapeCSVFieldL)
            ++ ('\r' :: '\n' :: joinWith ['\r', '\n']
              ((List.map (fun r => r.map String.toList) (r2 :: rest2)).map
                (fun r => joinWith [','] (r.map escapeCSVFieldL)))) := by
        rw [show joinWith ['\r', '\n']
              ((headers.map String.toList
                :: List.map (fun r => r.map String.toList) (r2 :: rest2)).map
                (fun r => joinWith [','] (r.map escapeCSVFieldL)))
            = joinWith [','] ((headers.map String.toList).map escapeCSVFieldL) ++ ['\r', '\n']
              ++ joinWith ['\r', '\n']
                ((List.map (fun r => r.map String.toList) (r2 :: rest2)).map
                  (fun r => joinWith [','] (r.map escapeCSVFieldL))) from rfl]
        simp
      rw [hsp]
      exact detectDelim_serialized _ _ (Or.inr ⟨_, rfl⟩) hsemi htab hpipe
  have hRows : parseRows ',' (stripBOM (serializeCSV headers rows).toList).length
      (stripBOM (serializeCSV headers rows).toList)
      = headers.map String.toList :: rows.map (fun r => r.map String.toList) := by
    rw [hstrip]
    apply parseRows_ser
    · exact List.cons_ne_nil _ _
    · intro rec hrec
      rcases List.mem_cons.mp hrec with rfl | hrec
      · refine ⟨?_, ?_, ?_⟩
        · intro hcon
          have h9 : headers.length = 0 := by
            have h10 := congrArg List.length hcon
            rwa [List.length_map] at h10
          have h11 : 0 < headers.length := List.length_pos.mpr h1
          omega
        · intro hcon
          have h9 : ([] : List Char) ∈ headers.map String.toList := by
            rw [hcon]; exact List.mem_cons_self _ _
          rcases List.mem_map.mp h9 with ⟨h0, hh0, hnil⟩
          exact toList_ne_nil_of_ne h0 (h2 h0 hh0) hnil
        · intro v hv
          rcases List.mem_map.mp hv with ⟨h0, hh0, rfl⟩
          exact h4 h0 hh0
      · rcases List.mem_map.mp hrec with ⟨r, hr, rfl⟩
        refine ⟨?_, ?_, ?_⟩
        · intro hcon
          have h9 : r.length = 0 := by
            have h10 := congrArg List.length hcon
            rwa [List.length_map] at h10
          have h10 := h5 r hr
          have h11 : 0 < headers.length := List.length_pos.mpr h1
          omega
        · intro hcon
          have hlen1 : r.length = 1 := by
            have h9 := congrArg List.length hcon
            rwa [List.length_map] at h9
          have h9 : ([] : List Char) ∈ r.map String.toList := by
            rw [hcon]; exact List.mem_cons_self _ _
          rcases List.mem_map.mp h9 with ⟨v, hv, hnil⟩
          have h10 : headers.length = 1 := by rw [← h5 r hr, hlen1]
          exact toList_ne_nil_of_ne v (h7 h10 r hr v hv) hnil
        · intro vL hvL
          rcases List.mem_map.mp hvL with ⟨v, hv, rfl⟩
          exact h6 r hr v hv
    · intro rl hrl hcontra
      cases rows with
      | nil =>
        have h9 : some (headers.map String.toList) = some rl := hrl
        injection h9 with h10
        subst h10
        have h11 := mem_of_getLastQ hcontra
        rcases List.mem_map.mp h11 with ⟨h0, hh0, hnil⟩
        exact toList_ne_nil_of_ne h0 (h2 h0 hh0) hnil
      | cons r2 rest2 =>
        rw [show List.map (fun r => r.map String.toList) (r2 :: rest2)
            = r2.map String.toList :: rest2.map (fun r => r.map String.toList) from rfl,
          List.getLast?_cons_cons,
          show (r2.map String.toList :: rest2.map (fun r => r.map String.toList))
            = List.map (fun r => r.map String.toList) (r2 :: rest2) from rfl,
          List.getLast?_map] at hrl
        rcases Option.map_eq_some'.mp hrl with ⟨r, hr, hfr⟩
        subst hfr
        rw [List.getLast?_map] at hcontra
        rcases Option.map_eq_some'.mp hcontra with ⟨vl, hvl, hvlnil⟩
        exact toList_ne_nil_of_ne vl (h8 r hr vl hvl) hvlnil
    · exact le_refl _
  have hPCrows : (parseCSV (serializeCSV headers rows)).rows
      = (parseRows (detectDelim (stripBOM (serializeCSV headers rows).toList))
          (stripBOM (serializeCSV headers rows).toList).length
          (stripBOM (serializeCSV headers rows).toList)).map (fun r => r.map List.asString) := rfl
  rw [hPCrows, hdelim, hRows]
  show buildData ((headers.map String.toList).map List.asString
      :: (rows.map (fun r => r.map String.toList)).map (fun r => r.map List.asString))
    = (⟨headers, rows⟩ : Table)
  rw [map_asString_toList, map_map_asString]
  show Table.mk (synthHeaders 0 headers) rows = Table.mk headers rows
  rw [synthHeaders_id headers h2 0]

/-- C1: counterexample to the unqualified claim.  The field value " x "
contains no control characters (every character has code point at least
32), yet the export/parse/build round trip returns the trimmed value "x",
because `parseCSV` applies JS trim to every unquoted field. -/
theorem csv_round_trip_counterexample :
    (∀ c ∈ (" x " : String).toList, 32 ≤ c.toNat) ∧
    buildData (parseCSV (serializeCSV ["h"] [[" x "]])).rows = ⟨["h"], [["x"]]⟩ ∧
    (⟨["h"], [["x"]]⟩ : Table) ≠ ⟨["h"], [[" x "]]⟩ := by
  refine ⟨by decide, by decide, by decide⟩

/-- C1: witness instantiating the round-trip theorem on concrete data with
an embedded comma. -/
theorem csv_round_trip_witness :
    buildData (parseCSV (serializeCSV ["name", "note"] [["Alice", "a,b"]])).rows
      = ⟨["name", "note"], [["Alice", "a,b"]]⟩ :=
  csv_round_trip ["name", "note"] [["Alice", "a,b"]]
    (by decide) (by decide) (by decide) (by decide) (by decide) (by decide) (by decide)
    (fun rl hrl vl hvl => by
      have h9 : some (["Alice", "a,b"] : List String) = some rl := hrl
      injection h9 with h10
      subst h10
      have h11 : some ("a,b" : String) = some vl := hvl
      injection h11 with h12
      subst h12
      decide)
